import Mathlib

/-!
Verification of the URL-rewriting / tracking-pixel service in `src/app.py`
(with the earlier serverless variant in `src/netlify/functions/app.py`).

The embedding works over `Str := List Char` (Python `str` values are
sequences of Unicode code points) and `List Nat` for byte buffers.
Python library functions that the program calls (`urllib.parse.urljoin`,
`str.find`, `str.strip`, codec decode/encode, `list.sort`) are modelled
by executable Lean functions that follow the CPython algorithms; the
multibyte codec tables are restricted to the byte pairs actually
exercised by the concrete buffers in this development, with the mapped
code points taken from the real codecs (each such place is commented).
-/

namespace Traffic

/-- Python strings as lists of code points. -/
abbrev Str := List Char

/-- Shorthand turning a Lean string literal into the `Str` it denotes. -/
def str (s : String) : Str := s.data

/-- Prefix test that inspects the pattern first, so that it reduces on
terms whose tail is a variable (`isPre [] t` is `true` for every `t`). -/
def isPre : Str → Str → Bool
  | [], _ => true
  | _ :: _, [] => false
  | a :: as, b :: bs => (a == b) && isPre as bs

/-- Whether `pre` is a prefix of `s` (Python `str.startswith`). -/
def startsWith (p s : Str) : Bool := isPre p s

/-- Whether `pat` occurs as a contiguous substring of `s` (Python `in`). -/
def containsSub (pat : Str) : Str → Bool
  | [] => pat.isEmpty
  | c :: rest => isPre pat (c :: rest) || containsSub pat (c :: rest).tail

/-- Index of the first occurrence of `pat` in `s`, if any. -/
def findSub (pat : Str) : Str → Option Nat
  | [] => if pat.isEmpty then some 0 else none
  | c :: rest =>
      if isPre pat (c :: rest) then some 0
      else (findSub pat rest).map (· + 1)

/-- Python `s.find(pat)`: first index, or `-1` when absent. -/
def pyFind (s pat : Str) : Int :=
  match findSub pat s with
  | some n => (n : Int)
  | none => -1

/-- Index of the last occurrence of `pat` in `s`, if any (Python `str.rfind`). -/
def rfindSub (pat s : Str) : Option Nat :=
  ((List.range (s.length + 1)).filter (fun i => isPre pat (s.drop i))).getLast?

/-- Python `s.rfind(pat)`: last index, or `-1` when absent. -/
def pyRfind (s pat : Str) : Int :=
  match rfindSub pat s with
  | some n => (n : Int)
  | none => -1

/-- Python slice `s[a:b]` for integer indices already known to be in range. -/
def pySlice (s : Str) (a b : Int) : Str :=
  (s.take b.toNat).drop a.toNat

/-- Python whitespace for the default `str.strip`. -/
def isPySpace (c : Char) : Bool :=
  c = ' ' || c = '\t' || c = '\n' || c = '\x0d' || c = '\x0b' || c = '\x0c'

/-- Python `str.strip()` with no argument. -/
def pyStrip (s : Str) : Str :=
  ((s.dropWhile isPySpace).reverse.dropWhile isPySpace).reverse

/-- Lower-case an ASCII letter, leaving other characters alone. -/
def lowerChar (c : Char) : Char :=
  if 'A' ≤ c ∧ c ≤ 'Z' then Char.ofNat (c.toNat + 32) else c

/-- Python `str.lower` restricted to ASCII (schemes are ASCII). -/
def lowerAscii (s : Str) : Str := s.map lowerChar

/-- Replace every (non-overlapping, leftmost) occurrence of `pat` by `rep`,
as Python `str.replace` does for a non-empty pattern. -/
def replaceSub (pat rep : Str) : Str → Str
  | [] => []
  | c :: rest =>
      if h : pat ≠ [] ∧ isPre pat (c :: rest) then
        rep ++ replaceSub pat rep ((c :: rest).drop pat.length)
      else
        c :: replaceSub pat rep rest
termination_by s => s.length
decreasing_by
  · simp only [List.length_drop, List.length_cons]
    have hp : 0 < pat.length := List.length_pos.mpr h.1
    omega
  · simp

/-- Number of (non-overlapping, leftmost) occurrences of a non-empty `pat`
in `s`, as Python `str.count`. -/
def countSub (pat : Str) : Str → Nat
  | [] => 0
  | c :: rest =>
      if h : pat ≠ [] ∧ isPre pat (c :: rest) then
        1 + countSub pat ((c :: rest).drop pat.length)
      else
        countSub pat rest
termination_by s => s.length
decreasing_by
  · simp only [List.length_drop, List.length_cons]
    have hp : 0 < pat.length := List.length_pos.mpr h.1
    omega
  · simp

/-! Model of `urllib.parse` as used by `fix_relative_paths_minimal` and
`fix_relative_paths`: `urlparse` / `urljoin`, following the CPython 3
algorithms (`Lib/urllib/parse.py`). -/

/-- The six components of CPython `urlparse` (empty list = empty string). -/
structure UrlParts where
  scheme : Str
  netloc : Str
  path : Str
  params : Str
  query : Str
  fragment : Str
deriving DecidableEq, Repr

/-- Valid characters of a URL scheme after the first (CPython `scheme_chars`). -/
def isSchemeChar (c : Char) : Bool :=
  ('a' ≤ c ∧ c ≤ 'z') || ('A' ≤ c ∧ c ≤ 'Z') || ('0' ≤ c ∧ c ≤ '9') ||
    c = '+' || c = '-' || c = '.'

/-- ASCII letter test (CPython checks `url[0].isascii() and url[0].isalpha()`). -/
def isAsciiAlpha (c : Char) : Bool :=
  ('a' ≤ c ∧ c ≤ 'z') || ('A' ≤ c ∧ c ≤ 'Z')

/-- Split a leading `scheme:` off a URL, as CPython `urlsplit` does: the text
before the first colon must be non-empty, start with an ASCII letter and
consist of scheme characters; the scheme is lower-cased. -/
def splitScheme (u : Str) : Str × Str :=
  let pre := u.takeWhile (fun c => c ≠ ':')
  let rest := u.dropWhile (fun c => c ≠ ':')
  match rest with
  | ':' :: tail =>
      match pre with
      | [] => ([], u)
      | c :: cs =>
          if isAsciiAlpha c ∧ (c :: cs).all isSchemeChar then (lowerAscii pre, tail)
          else ([], u)
  | _ => ([], u)

/-- Whether a character ends the netloc (CPython `_splitnetloc` delimiters). -/
def isNetlocDelim (c : Char) : Bool := c = '/' || c = '?' || c = '#'

/-- Split a leading `//netloc` off the remainder of a URL. -/
def splitNetloc (u : Str) : Str × Str :=
  if startsWith (str "//") u then
    let rest := u.drop 2
    (rest.takeWhile (fun c => ¬ isNetlocDelim c), rest.dropWhile (fun c => ¬ isNetlocDelim c))
  else ([], u)

/-- Split `before#fragment` at the first `#` (CPython `url.split('#', 1)`). -/
def splitFragment (u : Str) : Str × Str :=
  if u.contains '#' then
    (u.takeWhile (fun c => c ≠ '#'), (u.dropWhile (fun c => c ≠ '#')).drop 1)
  else (u, [])

/-- Split `before?query` at the first `?` (CPython `url.split('?', 1)`). -/
def splitQuery (u : Str) : Str × Str :=
  if u.contains '?' then
    (u.takeWhile (fun c => c ≠ '?'), (u.dropWhile (fun c => c ≠ '?')).drop 1)
  else (u, [])

/-- CPython `_splitparams`: split `;params` off the last path segment. -/
def splitParams (p : Str) : Str × Str :=
  let i : Int := if p.contains '/' then pyRfind p (str "/") else 0
  let j : Int := pyFind (p.drop i.toNat) (str ";")
  if j < 0 then (p, [])
  else (p.take (i.toNat + j.toNat), p.drop (i.toNat + j.toNat + 1))

/-- CPython `urlsplit` (with `allow_fragments=True`) plus the `urlparse`
params split, yielding the six `urlparse` components.  `defScheme` is the
scheme used when the URL itself declares none (CPython
`urlparse(url, scheme)`). -/
def urlparseP (u : Str) (defScheme : Str) : UrlParts :=
  let (sch, rest0) := splitScheme u
  let sch := if sch = [] then defScheme else sch
  let (netloc, rest1) := splitNetloc rest0
  let (rest2, frag) := splitFragment rest1
  let (path0, query) := splitQuery rest2
  let (path, params) := if path0.contains ';' then splitParams path0 else (path0, [])
  ⟨sch, netloc, path, params, query, frag⟩

/-- CPython `urlunsplit` on `(scheme, netloc, url, query, fragment)`. -/
def urlunsplitP (scheme netloc url query fragment : Str) : Str :=
  let url := if netloc ≠ [] ∨ startsWith (str "//") url then
      (str "//") ++ netloc ++ (if url ≠ [] ∧ ¬ startsWith (str "/") url then '/' :: url else url)
    else url
  let url := if scheme ≠ [] then scheme ++ ':' :: url else url
  let url := if query ≠ [] then url ++ '?' :: query else url
  if fragment ≠ [] then url ++ '#' :: fragment else url

/-- CPython `urlunparse`. -/
def urlunparseP (p : UrlParts) : Str :=
  let u := if p.params ≠ [] then p.path ++ ';' :: p.params else p.path
  urlunsplitP p.scheme p.netloc u p.query p.fragment

/-- CPython `uses_relative`. -/
def usesRelative : List Str :=
  [str "", str "ftp", str "http", str "gopher", str "nntp", str "imap",
   str "wais", str "file", str "https", str "shttp", str "mms",
   str "prospero", str "rtsp", str "rtspu", str "sftp", str "svn",
   str "svn+ssh", str "ws", str "wss"]

/-- CPython `uses_netloc`. -/
def usesNetloc : List Str :=
  [str "", str "ftp", str "http", str "gopher", str "nntp", str "telnet",
   str "imap", str "wais", str "file", str "mms", str "https", str "shttp",
   str "snews", str "prospero", str "rtsp", str "rtspu", str "rsync",
   str "svn", str "svn+ssh", str "sftp", str "nfs", str "git", str "git+ssh",
   str "ws", str "wss"]

/-- One step of CPython `urljoin`'s dot-segment loop. -/
def resolveSeg (acc : List Str) (seg : Str) : List Str :=
  if seg = str ".." then acc.dropLast
  else if seg = str "." then acc
  else acc ++ [seg]

/-- CPython `urljoin(base, url)`. -/
def urljoinP (base u : Str) : Str :=
  if base = [] then u
  else if u = [] then base
  else
    let b := urlparseP base []
    let r := urlparseP u b.scheme
    if ¬ (r.scheme = b.scheme ∧ r.scheme ∈ usesRelative) then u
    else
      -- CPython: since the schemes agree here, `scheme in uses_netloc`
      -- decides whether an authority component takes over.
      if r.scheme ∈ usesNetloc ∧ r.netloc ≠ [] then
        urlunparseP ⟨r.scheme, r.netloc, r.path, r.params, r.query, r.fragment⟩
      else
        let netloc := if r.scheme ∈ usesNetloc then b.netloc else r.netloc
        if r.path = [] ∧ r.params = [] then
          let query := if r.query = [] then b.query else r.query
          urlunparseP ⟨r.scheme, netloc, b.path, b.params, query, r.fragment⟩
        else
          let baseParts0 := b.path.splitOn '/'
          let baseParts := if baseParts0.getLast? ≠ some [] then baseParts0.dropLast else baseParts0
          let refParts := r.path.splitOn '/'
          let segments :=
            if startsWith (str "/") r.path then refParts
            else
              let merged := baseParts ++ refParts
              -- CPython: `segments[1:-1] = filter(None, segments[1:-1])`
              match merged with
              | [] => []
              | first :: tail =>
                  first :: (tail.dropLast.filter (fun s => s ≠ [])) ++
                    (match tail.getLast? with | some l => [l] | none => [])
          let resolved := segments.foldl resolveSeg []
          let resolved :=
            if segments.getLast? = some (str "..") ∨ segments.getLast? = some (str ".") then
              resolved ++ [[]]
            else resolved
          let path := List.intercalate (str "/") resolved
          let path := if path = [] then str "/" else path
          urlunparseP ⟨r.scheme, netloc, path, r.params, r.query, r.fragment⟩

/-! Model of the Path Resolver (`fix_relative_paths_minimal`,
`process_srcset` and the regex fallback inside `fix_relative_paths`),
at the level of a single reference value.

`fix_relative_paths` first calls `fix_relative_paths_minimal`, whose whole
body is wrapped in its own try/except returning the input on failure, so
the minimal (regex) path is the one that runs.  Its four patterns are
applied to the document in order; on a single attribute value they amount
to the per-value functions below:

* pattern 1 (`(src|href)=["\x27]((?!(?:http:|https:|data:|#|javascript:|mailto:))([^"\x27]+))["\x27]`)
  rewrites every non-empty `src`/`href` value that does not start with one
  of the six excluded prefixes — including protocol-relative `//…` values —
  to `urljoin(base_url, value)`;
* pattern 2 (`(src|href)=["\x27]//([^"\x27]+)["\x27]`) then turns a value that
  still starts with `//` into `https:` + value;
* pattern 3 hands each comma-separated `srcset` entry's URL token to
  `process_srcset`;
* pattern 4 (`url\(["\x27]?((?!(?:http:|https:|data:|#))([^)"\x27\s]+))["\x27]?\)`)
  rewrites every non-empty CSS `url(...)` value not starting with one of
  its four excluded prefixes to `urljoin(base_url, value)`. -/

/-- Prefixes that pattern 1 of `fix_relative_paths_minimal` leaves alone. -/
def srcHrefExcluded (v : Str) : Bool :=
  startsWith (str "http:") v || startsWith (str "https:") v ||
    startsWith (str "data:") v || startsWith (str "#") v ||
    startsWith (str "javascript:") v || startsWith (str "mailto:") v

/-- Effect of pattern 1 of `fix_relative_paths_minimal` on one value. -/
def minimalPat1 (base v : Str) : Str :=
  if v ≠ [] ∧ ¬ srcHrefExcluded v then urljoinP base v else v

/-- Effect of pattern 2 of `fix_relative_paths_minimal` on one value
(run after pattern 1 over the same text). -/
def minimalPat2 (v : Str) : Str :=
  if startsWith (str "//") v ∧ v.drop 2 ≠ [] then (str "https:") ++ v else v

/-- Net effect of `fix_relative_paths_minimal` on one `src`/`href` value. -/
def resolveSrcHref (base v : Str) : Str :=
  minimalPat2 (minimalPat1 base v)

/-- URL handling of `process_srcset` for one srcset entry's URL token. -/
def processSrcsetUrl (base v : Str) : Str :=
  if startsWith (str "//") v then (str "https:") ++ v
  else if startsWith (str "http://") v || startsWith (str "https://") v ||
      startsWith (str "data:") v || startsWith (str "#") v then v
  else urljoinP base v

/-- Prefixes that pattern 4 (CSS `url(...)`) leaves alone. -/
def cssExcluded (v : Str) : Bool :=
  startsWith (str "http:") v || startsWith (str "https:") v ||
    startsWith (str "data:") v || startsWith (str "#") v

/-- Effect of pattern 4 of `fix_relative_paths_minimal` on one CSS
`url(...)` value. -/
def resolveCssUrl (base v : Str) : Str :=
  if v ≠ [] ∧ ¬ cssExcluded v then urljoinP base v else v

/-- The regex fallback inside `fix_relative_paths` (its second
`except` branch) rewrites a non-excluded `src`/`href` value `v` to
`original_url + v` — plain string concatenation, not URL joining.  Its
lookahead omits the colons, so the excluded prefixes there are
`http`, `https`, `data`, `#`, `javascript`, `mailto`. -/
def fallbackSrcHref (base v : Str) : Str :=
  if v ≠ [] ∧ ¬ (startsWith (str "http") v || startsWith (str "data") v ||
      startsWith (str "#") v || startsWith (str "javascript") v ||
      startsWith (str "mailto") v) then
    base ++ v
  else v

/-- A reference value occurring in a document, tagged with where it sits:
a `src`/`href` attribute, one srcset entry (URL token plus descriptors),
or a CSS `url(...)` occurrence. -/
inductive Ref where
  | srcHref (v : Str)
  | srcsetEntry (url : Str) (descriptors : List Str)
  | cssUrl (v : Str)
deriving DecidableEq, Repr

/-- The Path Resolver's action on one reference of a document. -/
def resolveRef (base : Str) : Ref → Ref
  | .srcHref v => .srcHref (resolveSrcHref base v)
  | .srcsetEntry u d => .srcsetEntry (processSrcsetUrl base u) d
  | .cssUrl v => .cssUrl (resolveCssUrl base v)

/-- The Path Resolver's action on a document, viewed as its list of
reference values. -/
def resolveDoc (base : Str) (doc : List Ref) : List Ref :=
  doc.map (resolveRef base)

/-- Well-formedness of the base URL used by the resolver: an absolute
`http`/`https` URL with a non-empty host, as produced for `original_url`.
The parse facts are stated on the same `urlparseP` that `urljoinP` uses. -/
def wellFormedBase (base : Str) : Prop :=
  (startsWith (str "http://") base = true ∨ startsWith (str "https://") base = true) ∧
    ((urlparseP base []).scheme = str "http" ∨ (urlparseP base []).scheme = str "https") ∧
    (urlparseP base []).netloc ≠ []

instance (base : Str) : Decidable (wellFormedBase base) := by
  unfold wellFormedBase; infer_instance

/-! Basic facts about `startsWith` and the URL parser, used to settle the
Path Resolver claims. -/

theorem startsWith_iff (p s : Str) : startsWith p s = true ↔ ∃ t, s = p ++ t := by
  induction p generalizing s with
  | nil => simp [startsWith, isPre]
  | cons a as ih =>
      cases s with
      | nil => simp [startsWith, isPre]
      | cons b bs =>
          simp only [startsWith, isPre, Bool.and_eq_true, beq_iff_eq] at *
          constructor
          · rintro ⟨rfl, h⟩
            obtain ⟨t, rfl⟩ := (ih bs).mp h
            exact ⟨t, rfl⟩
          · rintro ⟨t, ht⟩
            cases ht
            exact ⟨rfl, (ih (as ++ t)).mpr ⟨t, rfl⟩⟩

theorem startsWith_refl_append (p t : Str) : startsWith p (p ++ t) = true :=
  (startsWith_iff p (p ++ t)).mpr ⟨t, rfl⟩

theorem startsWith_append_right {p s : Str} (t : Str) (h : startsWith p s = true) :
    startsWith p (s ++ t) = true := by
  obtain ⟨u, rfl⟩ := (startsWith_iff p s).mp h
  exact (startsWith_iff p _).mpr ⟨u ++ t, by simp⟩

theorem startsWith_weaken {p q s : Str} (h : startsWith (p ++ q) s = true) :
    startsWith p s = true := by
  obtain ⟨u, rfl⟩ := (startsWith_iff (p ++ q) s).mp h
  exact (startsWith_iff p _).mpr ⟨q ++ u, by simp⟩

theorem ne_nil_of_startsWith {p s : Str} (hp : p ≠ []) (h : startsWith p s = true) :
    s ≠ [] := by
  obtain ⟨u, rfl⟩ := (startsWith_iff p s).mp h
  simp only [ne_eq, List.append_eq_nil, not_and]
  intro hpnil
  exact absurd hpnil hp

/-- Non-empty `dropWhile` results start with an element refuting the
predicate. -/
theorem dropWhile_head_false {α : Type} {p : α → Bool} :
    ∀ (l : List α) {c : α} {t : List α}, l.dropWhile p = c :: t → p c = false := by
  intro l
  induction l with
  | nil => intro c t h; simp [List.dropWhile] at h
  | cons a as ih =>
      intro c t h
      by_cases ha : p a
      · exact ih (by simpa [List.dropWhile, ha] using h)
      · simp only [List.dropWhile, ha] at h
        obtain ⟨rfl, -⟩ := List.cons.inj h
        exact Bool.not_eq_true _ ▸ ha

/-- A string beginning with `/` parses with no scheme. -/
theorem splitScheme_slash (w : Str) : splitScheme ('/' :: w) = ([], '/' :: w) := by
  unfold splitScheme
  have ht : ('/' :: w).takeWhile (fun c => c ≠ ':') = '/' :: w.takeWhile (fun c => c ≠ ':') := by
    simp [List.takeWhile]
  have hd : ('/' :: w).dropWhile (fun c => c ≠ ':') = w.dropWhile (fun c => c ≠ ':') := by
    simp [List.dropWhile]
  rw [ht, hd]
  cases hw : w.dropWhile (fun c => c ≠ ':') with
  | nil => rfl
  | cons c cs =>
      have hc : c = ':' := by
        have := dropWhile_head_false (p := fun c => decide (c ≠ ':')) w hw
        simpa using this
      subst hc
      simp [isAsciiAlpha]

/-- Reassembled URLs with a scheme and an authority start with
`scheme://`. -/
theorem urlunsplit_starts (scheme netloc url query fragment : Str)
    (hs : scheme ≠ []) (hn : netloc ≠ []) :
    startsWith (scheme ++ str "://") (urlunsplitP scheme netloc url query fragment) = true := by
  unfold urlunsplitP
  dsimp only
  rw [if_pos (Or.inl hn)]
  rw [if_pos hs]
  have heq : ∀ X : Str, scheme ++ ':' :: ((str "//") ++ netloc ++ X) =
      (scheme ++ str "://") ++ (netloc ++ X) := by
    intro X
    simp [str]
  have hbase : ∀ X : Str,
      startsWith (scheme ++ str "://") (scheme ++ ':' :: ((str "//") ++ netloc ++ X)) = true := by
    intro X
    rw [heq]
    exact startsWith_refl_append _ _
  by_cases hq : query ≠ [] <;> by_cases hf : fragment ≠ []
  · rw [if_pos hf, if_pos hq]
    exact startsWith_append_right _ (startsWith_append_right _ (hbase _))
  · rw [if_neg hf, if_pos hq]
    exact startsWith_append_right _ (hbase _)
  · rw [if_pos hf, if_neg hq]
    exact startsWith_append_right _ (hbase _)
  · rw [if_neg hf, if_neg hq]
    exact hbase _

/-- Reassembled URLs with a scheme and an authority start with
`scheme://` (the `urlunparse` form). -/
theorem urlunparse_starts (p : UrlParts) (hs : p.scheme ≠ []) (hn : p.netloc ≠ []) :
    startsWith (p.scheme ++ str "://") (urlunparseP p) = true := by
  unfold urlunparseP
  exact urlunsplit_starts _ _ _ _ _ hs hn

/-- Parsing a string that begins with `/` keeps the default scheme. -/
theorem urlparse_scheme_slash (w d : Str) : (urlparseP ('/' :: w) d).scheme = d := by
  unfold urlparseP
  rw [splitScheme_slash]
  simp

/-- Reassembled URLs whose scheme is `http` or `https` and whose authority
is non-empty start with `http://` or `https://`. -/
theorem starts_unparse_any (sch : Str) (hs12 : sch = str "http" ∨ sch = str "https")
    (nl : Str) (hnl : nl ≠ []) (pth pr q f : Str) :
    startsWith (str "http://") (urlunparseP ⟨sch, nl, pth, pr, q, f⟩) = true ∨
      startsWith (str "https://") (urlunparseP ⟨sch, nl, pth, pr, q, f⟩) = true := by
  cases hs12 with
  | inl h =>
      left
      subst h
      have := urlunparse_starts ⟨str "http", nl, pth, pr, q, f⟩ (by dsimp only; decide) hnl
      simpa [str] using this
  | inr h =>
      right
      subst h
      have := urlunparse_starts ⟨str "https", nl, pth, pr, q, f⟩ (by dsimp only; decide) hnl
      simpa [str] using this

/-- Classification of `urljoinP base v` for a well-formed base: the result
is an absolute `http(s)://` URL, or `v` itself is returned unchanged (and
then `v` is not protocol-relative). -/
theorem urljoin_class (base : Str) (hb : wellFormedBase base) (v : Str) (hv : v ≠ []) :
    (startsWith (str "http://") (urljoinP base v) = true ∨
      startsWith (str "https://") (urljoinP base v) = true) ∨
    (urljoinP base v = v ∧ startsWith (str "//") v = false) := by
  obtain ⟨hlit, hsch, hnet⟩ := hb
  have hbne : base ≠ [] := by
    cases hlit with
    | inl h => exact ne_nil_of_startsWith (by decide) h
    | inr h => exact ne_nil_of_startsWith (by decide) h
  have hrelmem : (urlparseP base []).scheme ∈ usesRelative := by
    cases hsch with
    | inl h => rw [h]; decide
    | inr h => rw [h]; decide
  unfold urljoinP
  rw [if_neg hbne, if_neg hv]
  dsimp only
  by_cases hcond : (urlparseP v (urlparseP base []).scheme).scheme = (urlparseP base []).scheme ∧
      (urlparseP v (urlparseP base []).scheme).scheme ∈ usesRelative
  · have hsch12 : (urlparseP v (urlparseP base []).scheme).scheme = str "http" ∨
        (urlparseP v (urlparseP base []).scheme).scheme = str "https" := by
      rw [hcond.1]; exact hsch
    have hmem2 : (urlparseP v (urlparseP base []).scheme).scheme ∈ usesNetloc := by
      cases hsch12 with
      | inl h => rw [h]; decide
      | inr h => rw [h]; decide
    rw [if_neg (not_not_intro hcond)]
    by_cases hnl : (urlparseP v (urlparseP base []).scheme).scheme ∈ usesNetloc ∧
        (urlparseP v (urlparseP base []).scheme).netloc ≠ []
    · rw [if_pos hnl]
      exact Or.inl (starts_unparse_any _ hsch12 _ hnl.2 _ _ _ _)
    · rw [if_neg hnl]
      rw [if_pos hmem2]
      by_cases hpp : (urlparseP v (urlparseP base []).scheme).path = [] ∧
          (urlparseP v (urlparseP base []).scheme).params = []
      · rw [if_pos hpp]
        exact Or.inl (starts_unparse_any _ hsch12 _ hnet _ _ _ _)
      · rw [if_neg hpp]
        exact Or.inl (starts_unparse_any _ hsch12 _ hnet _ _ _ _)
  · rw [if_pos hcond]
    refine Or.inr ⟨rfl, ?_⟩
    by_contra hss
    have hss' : startsWith (str "//") v = true := by
      cases hb2 : startsWith (str "//") v with
      | false => exact absurd hb2 hss
      | true => rfl
    obtain ⟨t, ht⟩ := (startsWith_iff _ _).mp hss'
    have hveq : v = '/' :: '/' :: t := ht
    have hseq : (urlparseP v (urlparseP base []).scheme).scheme = (urlparseP base []).scheme := by
      rw [hveq]
      exact urlparse_scheme_slash _ _
    exact hcond ⟨hseq, by rw [hseq]; exact hrelmem⟩

/-- A string starting with a character other than `/` is not
protocol-relative. -/
theorem not_protorel_of_starts {p v : Str} {c : Char} (hc : c ≠ '/')
    (h : startsWith (c :: p) v = true) : startsWith (str "//") v = false := by
  obtain ⟨t, rfl⟩ := (startsWith_iff _ _).mp h
  have h2 : str "//" = '/' :: '/' :: [] := rfl
  rw [h2]
  simp only [startsWith, List.cons_append, isPre, Bool.and_eq_false_iff]
  left
  simp [Ne.symm hc]

/-- Excluded `src`/`href` values never start with `//`. -/
theorem srcHrefExcluded_not_protorel {v : Str} (h : srcHrefExcluded v = true) :
    startsWith (str "//") v = false := by
  simp only [srcHrefExcluded, Bool.or_eq_true] at h
  rcases h with ((((h | h) | h) | h) | h) | h
  · exact not_protorel_of_starts (by decide) (show startsWith ('h' :: str "ttp:") v = true from h)
  · exact not_protorel_of_starts (by decide) (show startsWith ('h' :: str "ttps:") v = true from h)
  · exact not_protorel_of_starts (by decide) (show startsWith ('d' :: str "ata:") v = true from h)
  · exact not_protorel_of_starts (by decide) (show startsWith ('#' :: str "") v = true from h)
  · exact not_protorel_of_starts (by decide) (show startsWith ('j' :: str "avascript:") v = true from h)
  · exact not_protorel_of_starts (by decide) (show startsWith ('m' :: str "ailto:") v = true from h)

/-- Absolute `http(s)://` results are excluded values and not
protocol-relative. -/
theorem abs_excluded_srcHref {w : Str}
    (h : startsWith (str "http://") w = true ∨ startsWith (str "https://") w = true) :
    srcHrefExcluded w = true ∧ startsWith (str "//") w = false := by
  cases h with
  | inl h =>
      refine ⟨?_, not_protorel_of_starts (by decide) (show startsWith ('h' :: str "ttp://") w = true from h)⟩
      have : startsWith (str "http:") w = true :=
        startsWith_weaken (p := str "http:") (q := str "//") h
      simp [srcHrefExcluded, this]
  | inr h =>
      refine ⟨?_, not_protorel_of_starts (by decide) (show startsWith ('h' :: str "ttps://") w = true from h)⟩
      have : startsWith (str "https:") w = true :=
        startsWith_weaken (p := str "https:") (q := str "//") h
      simp [srcHrefExcluded, this]

/-- Pattern 1 leaves excluded values alone. -/
theorem minimalPat1_noop {base v : Str} (h : srcHrefExcluded v = true) :
    minimalPat1 base v = v := by
  unfold minimalPat1
  rw [if_neg]
  rintro ⟨-, hx⟩
  exact hx h

/-- Pattern 2 leaves values that do not start with `//` alone. -/
theorem minimalPat2_noop {w : Str} (h : startsWith (str "//") w = false) :
    minimalPat2 w = w := by
  unfold minimalPat2
  rw [if_neg]
  rintro ⟨hc, -⟩
  rw [h] at hc
  exact Bool.false_ne_true hc

/-- Idempotence of the resolver on one `src`/`href` value. -/
theorem resolveSrcHref_idem (base : Str) (hb : wellFormedBase base) (v : Str) :
    resolveSrcHref base (resolveSrcHref base v) = resolveSrcHref base v := by
  by_cases hv : v = []
  · subst hv
    have h1 : resolveSrcHref base [] = [] := by
      simp [resolveSrcHref, minimalPat1, minimalPat2, startsWith, isPre, str]
    rw [h1, h1]
  by_cases hexc : srcHrefExcluded v = true
  · have h1 : resolveSrcHref base v = v := by
      unfold resolveSrcHref
      rw [minimalPat1_noop hexc, minimalPat2_noop (srcHrefExcluded_not_protorel hexc)]
    rw [h1, h1]
  · have hx : ¬ srcHrefExcluded v = true := hexc
    have h1 : resolveSrcHref base v = minimalPat2 (urljoinP base v) := by
      unfold resolveSrcHref minimalPat1
      rw [if_pos ⟨hv, hx⟩]
    rcases urljoin_class base hb v hv with habs | ⟨hid, hnp⟩
    · obtain ⟨hexc2, hnp2⟩ := abs_excluded_srcHref habs
      have h2 : resolveSrcHref base v = urljoinP base v := by
        rw [h1, minimalPat2_noop hnp2]
      rw [h2]
      unfold resolveSrcHref
      rw [minimalPat1_noop hexc2, minimalPat2_noop hnp2]
    · have h2 : resolveSrcHref base v = v := by
        rw [h1, hid, minimalPat2_noop hnp]
      rw [h2, h2]

/-- Idempotence of the resolver on one srcset entry URL token. -/
theorem processSrcsetUrl_idem (base : Str) (hb : wellFormedBase base) (v : Str) :
    processSrcsetUrl base (processSrcsetUrl base v) = processSrcsetUrl base v := by
  have hlit := hb.1
  by_cases hpr : startsWith (str "//") v = true
  · have h1 : processSrcsetUrl base v = (str "https:") ++ v := by
      unfold processSrcsetUrl
      rw [if_pos hpr]
    obtain ⟨t, rfl⟩ := (startsWith_iff _ _).mp hpr
    have habs : startsWith (str "https://") ((str "https:") ++ ((str "//") ++ t)) = true := by
      have : (str "https:") ++ ((str "//") ++ t) = (str "https://") ++ t := by
        simp [str]
      rw [this]
      exact startsWith_refl_append _ _
    rw [h1]
    unfold processSrcsetUrl
    rw [if_neg (by simp [not_protorel_of_starts (c := 'h') (by decide)
      (show startsWith ('h' :: str "ttps://") _ = true from habs)])]
    rw [if_pos (by simp [habs])]
  · by_cases hexc : (startsWith (str "http://") v || startsWith (str "https://") v ||
        startsWith (str "data:") v || startsWith (str "#") v) = true
    · have h1 : processSrcsetUrl base v = v := by
        unfold processSrcsetUrl
        rw [if_neg (by simp_all), if_pos (by simp_all)]
      rw [h1, h1]
    · by_cases hv : v = []
      · subst hv
        have h1 : processSrcsetUrl base [] = base := by
          unfold processSrcsetUrl
          rw [if_neg (by simp [startsWith, isPre, str])]
          rw [if_neg (by simp_all), ]
          unfold urljoinP
          have hbne : base ≠ [] := by
            cases hlit with
            | inl h => exact ne_nil_of_startsWith (by decide) h
            | inr h => exact ne_nil_of_startsWith (by decide) h
          rw [if_neg hbne, if_pos rfl]
        have h2 : processSrcsetUrl base base = base := by
          unfold processSrcsetUrl
          cases hlit with
          | inl h =>
              rw [if_neg (by simp [not_protorel_of_starts (c := 'h') (by decide)
                (show startsWith ('h' :: str "ttp://") base = true from h)])]
              rw [if_pos (by simp [h])]
          | inr h =>
              rw [if_neg (by simp [not_protorel_of_starts (c := 'h') (by decide)
                (show startsWith ('h' :: str "ttps://") base = true from h)])]
              rw [if_pos (by simp [h])]
        rw [h1, h2]
      · have h1 : processSrcsetUrl base v = urljoinP base v := by
          unfold processSrcsetUrl
          rw [if_neg (by simp_all), if_neg (by simp_all)]
        rcases urljoin_class base hb v hv with habs | ⟨hid, -⟩
        · have h2 : processSrcsetUrl base (urljoinP base v) = urljoinP base v := by
            unfold processSrcsetUrl
            cases habs with
            | inl h =>
                rw [if_neg (by simp [not_protorel_of_starts (c := 'h') (by decide)
                  (show startsWith ('h' :: str "ttp://") _ = true from h)])]
                rw [if_pos (by simp [h])]
            | inr h =>
                rw [if_neg (by simp [not_protorel_of_starts (c := 'h') (by decide)
                  (show startsWith ('h' :: str "ttps://") _ = true from h)])]
                rw [if_pos (by simp [h])]
          rw [h1, h2]
        · rw [h1, hid, h1, hid]

/-- Absolute `http(s)://` results are excluded CSS values. -/
theorem abs_excluded_css {w : Str}
    (h : startsWith (str "http://") w = true ∨ startsWith (str "https://") w = true) :
    cssExcluded w = true := by
  cases h with
  | inl h =>
      have : startsWith (str "http:") w = true :=
        startsWith_weaken (p := str "http:") (q := str "//") h
      simp [cssExcluded, this]
  | inr h =>
      have : startsWith (str "https:") w = true :=
        startsWith_weaken (p := str "https:") (q := str "//") h
      simp [cssExcluded, this]

/-- Idempotence of the resolver on one CSS `url(...)` value. -/
theorem resolveCssUrl_idem (base : Str) (hb : wellFormedBase base) (v : Str) :
    resolveCssUrl base (resolveCssUrl base v) = resolveCssUrl base v := by
  by_cases hv : v = []
  · subst hv
    have h1 : resolveCssUrl base [] = [] := by
      simp [resolveCssUrl]
    rw [h1, h1]
  by_cases hexc : cssExcluded v = true
  · have h1 : resolveCssUrl base v = v := by
      unfold resolveCssUrl
      rw [if_neg (by simp [hexc])]
    rw [h1, h1]
  · have h1 : resolveCssUrl base v = urljoinP base v := by
      unfold resolveCssUrl
      rw [if_pos ⟨hv, hexc⟩]
    rcases urljoin_class base hb v hv with habs | ⟨hid, -⟩
    · have hexc2 := abs_excluded_css habs
      rw [h1]
      unfold resolveCssUrl
      rw [if_neg (by simp [hexc2])]
    · rw [h1, hid, h1, hid]

/-- Idempotence of the resolver on a single reference. -/
theorem resolveRef_idem (base : Str) (hb : wellFormedBase base) (r : Ref) :
    resolveRef base (resolveRef base r) = resolveRef base r := by
  cases r with
  | srcHref v => simp [resolveRef, resolveSrcHref_idem base hb]
  | srcsetEntry u d => simp [resolveRef, processSrcsetUrl_idem base hb]
  | cssUrl v => simp [resolveRef, resolveCssUrl_idem base hb]

/-- Containment is inherited along sublists (contrapositive form). -/
theorem contains_false_of_sublist {l1 l2 : Str} {c : Char} (hs : l1.Sublist l2)
    (h : l2.contains c = false) : l1.contains c = false := by
  cases hc : l1.contains c with
  | false => rfl
  | true =>
      have hm : c ∈ l1 := by
        have := @List.elem_iff _ _ _ c l1
        exact this.mp hc
      have : c ∈ l2 := hs.mem hm
      have : l2.contains c = true := by
        have := @List.elem_iff _ _ _ c l2
        exact this.mpr (hs.mem hm)
      rw [this] at h
      exact absurd h (by simp)

/-- The fragment split is trivial when no `#` occurs. -/
theorem splitFragment_none {u : Str} (h : u.contains '#' = false) :
    splitFragment u = (u, []) := by
  unfold splitFragment
  rw [if_neg (by rw [h]; exact Bool.false_ne_true)]

/-- The query split is trivial when no `?` occurs. -/
theorem splitQuery_none {u : Str} (h : u.contains '?' = false) :
    splitQuery u = (u, []) := by
  unfold splitQuery
  rw [if_neg (by rw [h]; exact Bool.false_ne_true)]

/-- The netloc split on a protocol-relative value. -/
theorem splitNetloc_protorel (rest : Str) :
    splitNetloc ('/' :: '/' :: rest) =
      (rest.takeWhile (fun c => ¬ isNetlocDelim c),
        rest.dropWhile (fun c => ¬ isNetlocDelim c)) := by
  unfold splitNetloc
  rw [if_pos (show startsWith (str "//") ('/' :: '/' :: rest) = true from
    startsWith_refl_append (str "//") rest)]
  rfl

/-- Reassembly of parts with empty params, query and fragment, a scheme and
an authority, and a path that is empty or starts with `/`. -/
theorem urlunparse_basic (sch nl pth : Str) (hsch : sch ≠ []) (hnl : nl ≠ [])
    (hp : pth = [] ∨ startsWith (str "/") pth = true) :
    urlunparseP ⟨sch, nl, pth, [], [], []⟩ = sch ++ ':' :: ((str "//") ++ nl ++ pth) := by
  have hnilnil : ¬ (([] : Str) ≠ []) := by simp
  unfold urlunparseP urlunsplitP
  dsimp only
  rw [if_neg hnilnil]
  rw [if_neg hnilnil]
  rw [if_pos hsch]
  rw [if_pos (Or.inl hnl)]
  rw [if_neg hnilnil]
  rw [if_neg (show ¬ (pth ≠ [] ∧ ¬ startsWith (str "/") pth = true) by
    rcases hp with h | h
    · rintro ⟨hne2, -⟩
      exact hne2 h
    · rintro ⟨-, hns⟩
      exact hns h)]

/-- Parse of a protocol-relative reference `//rest` whose authority/path
part contains no `?`, `#` or `;`: the default scheme is kept, the netloc is
everything up to the first `/`, the path is the remainder. -/
theorem urlparse_protorel (rest d : Str) (hq : rest.contains '?' = false)
    (hf : rest.contains '#' = false) (hs : rest.contains ';' = false) :
    urlparseP ((str "//") ++ rest) d =
      ⟨d, rest.takeWhile (fun c => ¬ isNetlocDelim c),
        rest.dropWhile (fun c => ¬ isNetlocDelim c), [], [], []⟩ := by
  have hv : (str "//") ++ rest = '/' :: '/' :: rest := rfl
  have hsub : (rest.dropWhile (fun c => ¬ isNetlocDelim c)).Sublist rest :=
    List.dropWhile_sublist _
  have hf1 := contains_false_of_sublist hsub hf
  have hq1 := contains_false_of_sublist hsub hq
  have hs1 := contains_false_of_sublist hsub hs
  rw [hv]
  unfold urlparseP
  rw [splitScheme_slash]
  dsimp only
  rw [if_pos rfl, splitNetloc_protorel]
  dsimp only
  rw [splitFragment_none hf1]
  dsimp only
  rw [splitQuery_none hq1]
  dsimp only
  rw [if_neg (by rw [hs1]; exact Bool.false_ne_true)]

/-- Joining a protocol-relative `//rest` (non-empty host, no query,
fragment or params separators) onto a well-formed base yields exactly
`scheme:` + `//rest`, with the scheme taken from the base. -/
theorem urljoin_protorel (base : Str) (hb : wellFormedBase base) (rest : Str)
    (hne : rest ≠ []) (hhd : startsWith (str "/") rest = false)
    (hq : rest.contains '?' = false) (hf : rest.contains '#' = false)
    (hs : rest.contains ';' = false) :
    urljoinP base ((str "//") ++ rest) =
      (urlparseP base []).scheme ++ ':' :: '/' :: '/' :: rest := by
  obtain ⟨hlit, hsch, hnet⟩ := hb
  have hbne : base ≠ [] := by
    cases hlit with
    | inl h => exact ne_nil_of_startsWith (by decide) h
    | inr h => exact ne_nil_of_startsWith (by decide) h
  have hvne : (str "//") ++ rest ≠ [] := by simp [str]
  obtain ⟨c, t, rfl⟩ : ∃ c t, rest = c :: t := by
    cases rest with
    | nil => exact absurd rfl hne
    | cons c t => exact ⟨c, t, rfl⟩
  have hcq : c ≠ '?' := by
    intro h
    subst h
    simp [List.contains, List.elem] at hq
  have hcf : c ≠ '#' := by
    intro h
    subst h
    simp [List.contains, List.elem] at hf
  have hcs : c ≠ '/' := by
    intro h
    subst h
    simp [startsWith, isPre, str] at hhd
  have hcd : isNetlocDelim c = false := by
    simp [isNetlocDelim, hcq, hcf, hcs]
  have hr := urlparse_protorel (c :: t) (urlparseP base []).scheme hq hf hs
  have htake : (c :: t).takeWhile (fun x => ¬ isNetlocDelim x) =
      c :: t.takeWhile (fun x => ¬ isNetlocDelim x) := by
    simp [List.takeWhile, hcd]
  unfold urljoinP
  rw [if_neg hbne, if_neg hvne]
  dsimp only
  rw [hr]
  dsimp only
  rw [if_neg (by
    intro hcon
    exact hcon ⟨rfl, by
      cases hsch with
      | inl h => rw [h]; decide
      | inr h => rw [h]; decide⟩)]
  rw [if_pos ⟨by
    cases hsch with
    | inl h => rw [h]; decide
    | inr h => rw [h]; decide,
    by rw [htake]; exact List.cons_ne_nil _ _⟩]
  have hpslash : (c :: t).dropWhile (fun x => ¬ isNetlocDelim x) = [] ∨
      startsWith (str "/") ((c :: t).dropWhile (fun x => ¬ isNetlocDelim x)) = true := by
    cases hw : (c :: t).dropWhile (fun x => ¬ isNetlocDelim x) with
    | nil => exact Or.inl rfl
    | cons d u =>
        right
        have hd : ¬ (¬ isNetlocDelim d) = true := by
          have := dropWhile_head_false (p := fun x => decide (¬ isNetlocDelim x = true)) _ hw
          simpa using this
        have hdd : isNetlocDelim d = true := by
          cases hdecide : isNetlocDelim d with
          | false => exact absurd (by simp [hdecide]) hd
          | true => rfl
        have hdm : d ∈ (c :: t) := by
          have hself : d ∈ d :: u := List.mem_cons_self _ _
          exact (hw ▸ List.dropWhile_sublist (l := c :: t)
            (fun x => decide (¬ isNetlocDelim x = true))).mem hself
        have hdq : d ≠ '?' := by
          intro h
          subst h
          have hcn : (c :: t).contains '?' = true :=
            (@List.elem_iff _ _ _ '?' (c :: t)).mpr hdm
          rw [hcn] at hq
          exact absurd hq (by simp)
        have hdf : d ≠ '#' := by
          intro h
          subst h
          have hcn : (c :: t).contains '#' = true :=
            (@List.elem_iff _ _ _ '#' (c :: t)).mpr hdm
          rw [hcn] at hf
          exact absurd hf (by simp)
        have hds : d = '/' := by
          simp only [isNetlocDelim, Bool.or_eq_true, decide_eq_true_eq] at hdd
          rcases hdd with (h | h) | h
          · exact h
          · exact absurd h hdq
          · exact absurd h hdf
        subst hds
        have hone : str "/" = '/' :: ([] : Str) := rfl
        rw [hone]
        simp [startsWith, isPre]
  rw [urlunparse_basic _ _ _ (by
    cases hsch with
    | inl h => rw [h]; decide
    | inr h => rw [h]; decide) (by rw [htake]; exact List.cons_ne_nil _ _) hpslash]
  have hfinal : (str "//") ++ ((c :: t).takeWhile (fun x => ¬ isNetlocDelim x) ++
      (c :: t).dropWhile (fun x => ¬ isNetlocDelim x)) = '/' :: '/' :: c :: t := by
    rw [List.takeWhile_append_dropWhile]
    rfl
  rw [List.append_assoc, hfinal]

/-- Values starting with `/` are not excluded by pattern 1. -/
theorem srcHrefExcluded_slash (w : Str) : srcHrefExcluded ('/' :: w) = false := rfl

/-- Values starting with `/` are not excluded by the CSS pattern. -/
theorem cssExcluded_slash (w : Str) : cssExcluded ('/' :: w) = false := rfl

/-- C1, counterexample.  The claim says a protocol-relative `//host/path`
reference is rewritten to exactly `https://host/path` regardless of the
base URL's scheme.  On an `http:` base, pattern 1 of
`fix_relative_paths_minimal` catches the value first (its lookahead does
not exclude `//…`) and hands it to `urljoin`, which keeps the base's
scheme: the result is `http://host/path`, not `https://host/path`. -/
theorem c1_counterexample :
    resolveSrcHref (str "http://example.com/page") (str "//cdn.example.com/a.png") =
      str "http://cdn.example.com/a.png" ∧
    resolveSrcHref (str "http://example.com/page") (str "//cdn.example.com/a.png") ≠
      str "https://cdn.example.com/a.png" := by
  constructor
  · decide
  · decide

/-- C1 (amended): for every well-formed base URL and every
protocol-relative reference `//rest` (non-empty host not starting with
`/`, and no `?`, `#` or `;` in the remainder), the `src`/`href` and CSS
`url(...)` rewriting paths of `fix_relative_paths_minimal` produce
`scheme://rest` with the scheme taken from the base URL — so exactly
`https://host/path` only when the base scheme is `https` — while only the
`srcset` path (`process_srcset`) always produces `https://host/path`. -/
theorem c1_protocol_relative_amended (base : Str) (hb : wellFormedBase base) (rest : Str)
    (h1 : rest ≠ []) (h2 : startsWith (str "/") rest = false)
    (h3 : rest.contains '?' = false) (h4 : rest.contains '#' = false)
    (h5 : rest.contains ';' = false) :
    resolveSrcHref base ((str "//") ++ rest) =
        (urlparseP base []).scheme ++ ':' :: '/' :: '/' :: rest ∧
    resolveCssUrl base ((str "//") ++ rest) =
        (urlparseP base []).scheme ++ ':' :: '/' :: '/' :: rest ∧
    processSrcsetUrl base ((str "//") ++ rest) = (str "https:") ++ ((str "//") ++ rest) := by
  have hjoin := urljoin_protorel base hb rest h1 h2 h3 h4 h5
  have hvne : (str "//") ++ rest ≠ [] := by simp [str]
  have hexc : srcHrefExcluded ((str "//") ++ rest) = false := srcHrefExcluded_slash ('/' :: rest)
  have hcexc : cssExcluded ((str "//") ++ rest) = false := cssExcluded_slash ('/' :: rest)
  refine ⟨?_, ?_, ?_⟩
  · unfold resolveSrcHref minimalPat1
    rw [if_pos ⟨hvne, by simp [hexc]⟩, hjoin]
    refine minimalPat2_noop ?_
    rcases hb.2.1 with h | h
    · rw [h]
      rfl
    · rw [h]
      rfl
  · unfold resolveCssUrl
    rw [if_pos ⟨hvne, by simp [hcexc]⟩]
    exact hjoin
  · unfold processSrcsetUrl
    rw [if_pos (startsWith_refl_append (str "//") rest)]

/-- C1, witness for the amended theorem at a concrete input. -/
theorem c1_protocol_relative_amended_witness :
    wellFormedBase (str "https://example.com/page") ∧
    resolveSrcHref (str "https://example.com/page") ((str "//") ++ str "cdn.example.com/a.png") =
      (urlparseP (str "https://example.com/page") []).scheme ++
        ':' :: '/' :: '/' :: str "cdn.example.com/a.png" ∧
    resolveCssUrl (str "https://example.com/page") ((str "//") ++ str "cdn.example.com/a.png") =
      (urlparseP (str "https://example.com/page") []).scheme ++
        ':' :: '/' :: '/' :: str "cdn.example.com/a.png" ∧
    processSrcsetUrl (str "https://example.com/page") ((str "//") ++ str "cdn.example.com/a.png") =
      (str "https:") ++ ((str "//") ++ str "cdn.example.com/a.png") :=
  ⟨by decide, c1_protocol_relative_amended (str "https://example.com/page") (by decide)
    (str "cdn.example.com/a.png") (by decide) (by decide) (by decide) (by decide) (by decide)⟩

/-- C2, counterexample.  The claim says every rewriting path — including
the regex fallback that runs when the structural parse fails — replaces a
relative reference `r` by standard URL joining of the base and `r`.  The
fallback in `fix_relative_paths` instead concatenates the base URL string
and the value (`r'\1="' + original_url + r'\2"'`), which differs from
`urljoin` whenever the base does not end in `/`. -/
theorem c2_counterexample :
    fallbackSrcHref (str "https://example.com/dir/page.html") (str "img.png") =
      str "https://example.com/dir/page.htmlimg.png" ∧
    urljoinP (str "https://example.com/dir/page.html") (str "img.png") =
      str "https://example.com/dir/img.png" ∧
    fallbackSrcHref (str "https://example.com/dir/page.html") (str "img.png") ≠
      urljoinP (str "https://example.com/dir/page.html") (str "img.png") := by
  refine ⟨by decide, by decide, by decide⟩

/-- C2 (amended): in the primary rewriting path
(`fix_relative_paths_minimal`, the one that actually runs), every
non-empty `src`/`href` value that does not carry one of the excluded
prefixes is replaced by `urljoin(base, value)`, and likewise for CSS
`url(...)` values; a srcset URL token that is not protocol-relative and
does not carry one of `process_srcset`'s excluded prefixes is also
replaced by `urljoin(base, value)` (a protocol-relative srcset token
goes to the `https:` branch instead — see C1).  The last-resort regex
fallback of `fix_relative_paths` instead prepends the base URL string
(see the counterexample). -/
theorem c2_standard_joining_amended (base : Str) (hb : wellFormedBase base) (v : Str)
    (h1 : v ≠ []) (h2 : srcHrefExcluded v = false) (h3 : cssExcluded v = false) :
    resolveSrcHref base v = urljoinP base v ∧
    (startsWith (str "//") v = false → processSrcsetUrl base v = urljoinP base v) ∧
    resolveCssUrl base v = urljoinP base v := by
  refine ⟨?_, ?_, ?_⟩
  · unfold resolveSrcHref minimalPat1
    rw [if_pos ⟨h1, by simp [h2]⟩]
    rcases urljoin_class base hb v h1 with habs | ⟨hid, hnp⟩
    · exact minimalPat2_noop (abs_excluded_srcHref habs).2
    · rw [hid, minimalPat2_noop hnp]
  · intro h4
    unfold processSrcsetUrl
    rw [if_neg (by simp [h4])]
    have hcss := h3
    unfold cssExcluded at hcss
    simp only [Bool.or_eq_false_iff] at hcss
    obtain ⟨⟨⟨hcp, hcs⟩, hcd⟩, hch⟩ := hcss
    have he1 : (str "http:") ++ (str "//") = str "http://" := by decide
    have he2 : (str "https:") ++ (str "//") = str "https://" := by decide
    have hh1 : startsWith (str "http://") v = false := by
      cases hq : startsWith (str "http://") v with
      | false => rfl
      | true =>
          have hw := startsWith_weaken (p := str "http:") (q := str "//")
            (by rw [he1]; exact hq)
          rw [hw] at hcp
          exact absurd hcp (by simp)
    have hh2 : startsWith (str "https://") v = false := by
      cases hq : startsWith (str "https://") v with
      | false => rfl
      | true =>
          have hw := startsWith_weaken (p := str "https:") (q := str "//")
            (by rw [he2]; exact hq)
          rw [hw] at hcs
          exact absurd hcs (by simp)
    rw [if_neg (by simp [hh1, hh2, hcd, hch])]
  · unfold resolveCssUrl
    rw [if_pos ⟨h1, by simp [h3]⟩]

/-- C2, witness for the amended theorem at a concrete input (the join
resolves `..` segments and keeps query and fragment), exercising all
three reference kinds. -/
theorem c2_standard_joining_amended_witness :
    wellFormedBase (str "https://example.com/a/b/c.html") ∧
    resolveSrcHref (str "https://example.com/a/b/c.html") (str "../x/y.png?q=1#f") =
      urljoinP (str "https://example.com/a/b/c.html") (str "../x/y.png?q=1#f") ∧
    processSrcsetUrl (str "https://example.com/a/b/c.html") (str "../x/y.png?q=1#f") =
      urljoinP (str "https://example.com/a/b/c.html") (str "../x/y.png?q=1#f") ∧
    resolveCssUrl (str "https://example.com/a/b/c.html") (str "../x/y.png?q=1#f") =
      urljoinP (str "https://example.com/a/b/c.html") (str "../x/y.png?q=1#f") :=
  ⟨by decide,
    (c2_standard_joining_amended (str "https://example.com/a/b/c.html") (by decide)
      (str "../x/y.png?q=1#f") (by decide) (by decide) (by decide)).1,
    (c2_standard_joining_amended (str "https://example.com/a/b/c.html") (by decide)
      (str "../x/y.png?q=1#f") (by decide) (by decide) (by decide)).2.1 (by decide),
    (c2_standard_joining_amended (str "https://example.com/a/b/c.html") (by decide)
      (str "../x/y.png?q=1#f") (by decide) (by decide) (by decide)).2.2⟩

/-- C6: for every well-formed base URL and every document (viewed as its
list of reference values), applying the Path Resolver twice equals
applying it once — values that are absolute after the first pass are left
untouched by the second. -/
theorem c6_resolver_idempotent (base : Str) (hb : wellFormedBase base) (doc : List Ref) :
    resolveDoc base (resolveDoc base doc) = resolveDoc base doc := by
  unfold resolveDoc
  rw [List.map_map]
  apply List.map_congr_left
  intro r _
  exact resolveRef_idem base hb r

/-- C6, witness at a concrete base and document. -/
theorem c6_resolver_idempotent_witness :
    wellFormedBase (str "http://example.com/dir/page.html") ∧
    resolveDoc (str "http://example.com/dir/page.html")
        (resolveDoc (str "http://example.com/dir/page.html")
          [Ref.srcHref (str "img.png"), Ref.srcHref (str "//cdn.example.com/x.js"),
           Ref.srcHref (str "https://other.example.com/y.js"),
           Ref.srcsetEntry (str "a.png") [str "2x"], Ref.cssUrl (str "../bg.css")]) =
      resolveDoc (str "http://example.com/dir/page.html")
        [Ref.srcHref (str "img.png"), Ref.srcHref (str "//cdn.example.com/x.js"),
         Ref.srcHref (str "https://other.example.com/y.js"),
         Ref.srcsetEntry (str "a.png") [str "2x"], Ref.cssUrl (str "../bg.css")] :=
  ⟨by decide, c6_resolver_idempotent (str "http://example.com/dir/page.html") (by decide) _⟩

/-! Model of the Injector's snippet pre-processing (`create`, lines
249–256 of `src/app.py`):

    pixel_code = pixel_code.strip()
    if pixel_code.startswith('<script'):
        start_idx = pixel_code.find('>') + 1
        end_idx = pixel_code.rfind('</script>')
        if start_idx > 0 and end_idx > start_idx:
            pixel_code = pixel_code[start_idx:end_idx].strip()

The processed snippet is then embedded inside the guard's own
`<script>` block (`pixel_script`), so the output contains nested
`<script>` wrappers exactly when the processed snippet still contains
a `<script` tag. -/

/-- The snippet pre-processing of `create`. -/
def stripScriptWrapper (s : Str) : Str :=
  let p := pyStrip s
  if startsWith (str "<script") p then
    let start_idx : Int := pyFind p (str ">") + 1
    let end_idx : Int := pyRfind p (str "</script>")
    if start_idx > 0 ∧ end_idx > start_idx then pyStrip (pySlice p start_idx end_idx) else p
  else p

/-- Strings with a non-space head and a non-space last element strip to
themselves. -/
theorem pyStrip_fixed {s : Str} (c : Char) (t : Str) (hcons : s = c :: t)
    (hc : isPySpace c = false) (d : Char) (u : Str) (hlast : s = u ++ [d])
    (hd : isPySpace d = false) : pyStrip s = s := by
  have h1 : s.dropWhile isPySpace = s := by
    rw [hcons]
    simp [List.dropWhile, hc]
  have h2 : s.reverse.dropWhile isPySpace = s.reverse := by
    rw [hlast, List.reverse_append]
    simp [List.dropWhile, hd]
  unfold pyStrip
  rw [h1, h2, List.reverse_reverse]

/-- Last element of `filter` over an initial range when `p'` holds at `n`
and at no later index of the range. -/
theorem filter_range_getLast (p' : Nat → Bool) : ∀ m n, p' n = true →
    (∀ i, n < i → i < n + m + 1 → p' i = false) →
    ((List.range (n + m + 1)).filter p').getLast? = some n := by
  intro m
  induction m with
  | zero =>
      intro n hp _
      rw [List.range_succ, List.filter_append]
      simp [hp]
  | succ m ih =>
      intro n hp hforall
      rw [show n + (m + 1) + 1 = (n + m + 1) + 1 from by omega]
      rw [List.range_succ, List.filter_append]
      have hfalse : p' (n + m + 1) = false := hforall _ (by omega) (by omega)
      have hnil : List.filter p' [n + m + 1] = [] := by
        simp [hfalse]
      rw [hnil, List.append_nil]
      exact ih n hp (fun i h1 h2 => hforall i h1 (by omega))

/-- `rfind` of a pattern on a string that ends with that pattern returns
the index where the final copy starts. -/
theorem rfind_append_pat (pat pre : Str) (hpat : pat ≠ []) :
    rfindSub pat (pre ++ pat) = some pre.length := by
  unfold rfindSub
  rw [show (pre ++ pat).length + 1 = pre.length + pat.length + 1 from by simp]
  refine filter_range_getLast _ pat.length pre.length ?_ ?_
  · rw [show pre.length = (pre.length : Nat) from rfl, List.drop_left]
    exact (startsWith_iff pat pat).mpr ⟨[], by simp⟩
  · intro i h1 h2
    cases hval : isPre pat ((pre ++ pat).drop i) with
    | false => rfl
    | true =>
        obtain ⟨w, hw⟩ := (startsWith_iff pat _).mp hval
        have hlen : ((pre ++ pat).drop i).length = pre.length + pat.length - i := by
          simp
        rw [hw] at hlen
        simp only [List.length_append] at hlen
        have hppos : 0 < pat.length := List.length_pos.mpr hpat
        omega

/-- C7, counterexample.  The claim says every snippet that already
contains a literal `<script>...</script>` wrapper is stripped and only
the inner code rewrapped.  The code strips only when the (trimmed)
snippet *starts with* `<script`: a snippet whose wrapper sits after other
code is embedded unchanged, so the guard's own `<script>` block ends up
nested around the snippet's `<script>` tag. -/
theorem c7_counterexample :
    containsSub (str "</script>") (str "foo();<script>bar()</script>") = true ∧
    stripScriptWrapper (str "foo();<script>bar()</script>") =
      str "foo();<script>bar()</script>" ∧
    containsSub (str "<script")
      (stripScriptWrapper (str "foo();<script>bar()</script>")) = true := by
  refine ⟨by decide, by decide, by decide⟩

/-- C7 (amended): only a snippet that (after trimming) *starts with* a
`<script…>` wrapper is stripped: for a snippet of the exact form
`<script>` + body + `</script>` with non-empty, already-trimmed body, the
processed snippet is the body itself, and it contains no `<script` tag —
hence no nested wrappers — precisely when the body contains none.
Snippets whose wrapper is not at the start are embedded whole (see the
counterexample). -/
theorem c7_strip_leading_wrapper_amended (body : Str) (h1 : body ≠ [])
    (h2 : containsSub (str "<script") body = false) (h3 : pyStrip body = body) :
    stripScriptWrapper ((str "<script>") ++ body ++ (str "</script>")) = body ∧
    containsSub (str "<script")
      (stripScriptWrapper ((str "<script>") ++ body ++ (str "</script>"))) = false := by
  have hstrip : pyStrip ((str "<script>") ++ body ++ (str "</script>")) =
      (str "<script>") ++ body ++ (str "</script>") := by
    refine pyStrip_fixed '<' (str "script>" ++ body ++ str "</script>") ?_ (by decide)
      '>' ((str "<script>") ++ body ++ (str "</scrip") ++ ['t']) ?_ (by decide)
    · rfl
    · simp [str]
  have hstart : startsWith (str "<script") ((str "<script>") ++ body ++ (str "</script>")) = true := by
    have hdecomp : (str "<script>") ++ body ++ (str "</script>") =
        (str "<script") ++ ('>' :: (body ++ str "</script>")) := by
      simp [str]
    rw [hdecomp]
    exact startsWith_refl_append _ _
  have hfind : findSub (str ">") ((str "<script>") ++ body ++ (str "</script>")) = some 7 := rfl
  have hpf : pyFind ((str "<script>") ++ body ++ (str "</script>")) (str ">") = 7 := by
    unfold pyFind
    rw [hfind]
    rfl
  have hpr : pyRfind ((str "<script>") ++ body ++ (str "</script>")) (str "</script>") =
      ((8 + body.length : Nat) : Int) := by
    unfold pyRfind
    have hdecomp : (str "<script>") ++ body ++ (str "</script>") =
        ((str "<script>") ++ body) ++ (str "</script>") := by
      rw [List.append_assoc]
    rw [hdecomp, rfind_append_pat _ _ (by decide)]
    have hlen : ((str "<script>") ++ body).length = 8 + body.length := by
      simp [str]
      omega
    rw [hlen]
  have hslice : pySlice ((str "<script>") ++ body ++ (str "</script>")) 8
      ((8 + body.length : Nat) : Int) = body := by
    unfold pySlice
    have htonat : ((8 + body.length : Nat) : Int).toNat = 8 + body.length := by
      omega
    rw [htonat]
    have hdecomp : (str "<script>") ++ body ++ (str "</script>") =
        ((str "<script>") ++ body) ++ (str "</script>") := by
      rw [List.append_assoc]
    rw [hdecomp]
    have hlen : 8 + body.length = ((str "<script>") ++ body).length := by
      simp [str]
      omega
    rw [hlen, List.take_left]
    have hlen8 : (8 : Int).toNat = (str "<script>").length := by decide
    rw [hlen8, List.drop_left]
  have hbody : 0 < body.length := List.length_pos.mpr h1
  have hmain : stripScriptWrapper ((str "<script>") ++ body ++ (str "</script>")) = body := by
    unfold stripScriptWrapper
    rw [hstrip]
    dsimp only
    rw [if_pos hstart, hpf, hpr]
    rw [if_pos ⟨by omega, by omega⟩]
    rw [show (7 : Int) + 1 = (8 : Int) from by omega]
    rw [hslice, h3]
  exact ⟨hmain, by rw [hmain]; exact h2⟩

/-- C7, witness for the amended theorem at a concrete snippet. -/
theorem c7_strip_leading_wrapper_amended_witness :
    (str "ttq.load('X');ttq.page();" ≠ [] ∧
      containsSub (str "<script") (str "ttq.load('X');ttq.page();") = false ∧
      pyStrip (str "ttq.load('X');ttq.page();") = str "ttq.load('X');ttq.page();") ∧
    stripScriptWrapper ((str "<script>") ++ str "ttq.load('X');ttq.page();" ++
        (str "</script>")) = str "ttq.load('X');ttq.page();" ∧
    containsSub (str "<script")
      (stripScriptWrapper ((str "<script>") ++ str "ttq.load('X');ttq.page();" ++
        (str "</script>"))) = false :=
  ⟨⟨by decide, by decide, by decide⟩,
    c7_strip_leading_wrapper_amended (str "ttq.load('X');ttq.page();")
      (by decide) (by decide) (by decide)⟩

/-! Model of the Entry Store records and the eviction logic of `create`
(lines 508–532 of `src/app.py`). -/

/-- A JSON-style field value of a stored entry. -/
inductive PyVal where
  | s (v : Str)
  | i (n : Int)
  | b (v : Bool)
deriving DecidableEq, Repr

/-- A stored entry: the ordered field list of a JSON object. -/
abbrev Entry := List (Str × PyVal)

/-- Field lookup (`url.get(key)` / `url[key]` on a well-formed record). -/
def entryGet (e : Entry) (k : Str) : Option PyVal :=
  (e.find? (fun p => p.1 = k)).map (·.2)

/-- The sort key of the eviction: `x.get('created_at', '')`.  In the
program `created_at` is always a `%Y-%m-%d %H:%M:%S` string; a missing
key defaults to the empty string. -/
def createdAt (e : Entry) : Str :=
  match entryGet e (str "created_at") with
  | some (.s v) => v
  | _ => []

/-- The entry's identifier (`entry['id']`; always a string in the store). -/
def entryId (e : Entry) : Str :=
  match entryGet e (str "id") with
  | some (.s v) => v
  | _ => []

/-- Python string comparison `a <= b`: lexicographic on code points. -/
def strLe : Str → Str → Bool
  | [], _ => true
  | _ :: _, [] => false
  | a :: as, b :: bs => if a = b then strLe as bs else decide (a < b)

theorem strLe_refl (a : Str) : strLe a a = true := by
  induction a with
  | nil => rfl
  | cons c cs ih => simp [strLe, ih]

theorem strLe_total (a b : Str) : strLe a b = true ∨ strLe b a = true := by
  induction a generalizing b with
  | nil => left; rfl
  | cons c cs ih =>
      cases b with
      | nil => right; rfl
      | cons d ds =>
          by_cases hcd : c = d
          · subst hcd
            simpa [strLe] using ih ds
          · rcases lt_trichotomy c d with h | h | h
            · left
              simp [strLe, hcd, h]
            · exact absurd h hcd
            · right
              simp [strLe, Ne.symm hcd, h]

theorem strLe_trans {a b c : Str} (h1 : strLe a b = true) (h2 : strLe b c = true) :
    strLe a c = true := by
  induction a generalizing b c with
  | nil => rfl
  | cons x xs ih =>
      cases b with
      | nil => simp [strLe] at h1
      | cons y ys =>
          cases c with
          | nil => simp [strLe] at h2
          | cons z zs =>
              by_cases hxy : x = y <;> by_cases hyz : y = z
              · subst hxy; subst hyz
                simp only [strLe, if_pos rfl] at h1 h2 ⊢
                exact ih h1 h2
              · subst hxy
                simp only [strLe, if_pos rfl] at h1
                simp only [strLe, if_neg hyz, decide_eq_true_eq] at h2
                simp [strLe, hyz, h2]
              · subst hyz
                simp only [strLe, if_neg hxy, decide_eq_true_eq] at h1
                simp [strLe, hxy, h1]
              · simp only [strLe, if_neg hxy, decide_eq_true_eq] at h1
                simp only [strLe, if_neg hyz, decide_eq_true_eq] at h2
                have hxz : x < z := lt_trans h1 h2
                simp [strLe, ne_of_lt hxz, hxz]

/-- The order used by the eviction (`url_list.sort(key=lambda x:
x.get('created_at', ''))`). -/
def entryLe (a b : Entry) : Prop := strLe (createdAt a) (createdAt b) = true

instance : DecidableRel entryLe := fun a b => by
  unfold entryLe
  infer_instance

instance : IsTotal Entry entryLe :=
  ⟨fun a b => by
    unfold entryLe
    exact strLe_total _ _⟩

instance : IsTrans Entry entryLe :=
  ⟨fun a b c h1 h2 => strLe_trans h1 h2⟩

/-- State touched by the eviction step: the entry list and the set of
stored document files (named by entry id). -/
structure CreateState where
  entries : List Entry
  files : List Str
deriving DecidableEq, Repr

/-- The eviction-and-append step of `create` (lines 508–532): when the
list already holds at least 100 entries, sort it in place by
`created_at` (Python's stable sort, modelled by the stable
`List.insertionSort`), pop the first (oldest) entry, delete its backing
`<id>.html` file, then append the new entry. -/
def createEvictAppend (st : CreateState) (newEntry : Entry) : CreateState :=
  if 100 ≤ st.entries.length then
    match List.insertionSort entryLe st.entries with
    | [] => { entries := [newEntry], files := st.files }
    | oldest :: restSorted =>
        { entries := restSorted ++ [newEntry],
          files := st.files.filter (fun f => f ≠ entryId oldest) }
  else { entries := st.entries ++ [newEntry], files := st.files }

/-- One concrete entry used by the eviction counterexample. -/
def evEntry (i : Nat) : Entry :=
  [(str "id", PyVal.s (List.replicate i 'b')),
   (str "created_at", PyVal.s (List.replicate i 'b'))]

/-- A store already holding 101 entries (distinct ascending timestamps). -/
def bigStore : CreateState :=
  { entries := (List.range 101).map evEntry, files := [] }

set_option maxRecDepth 8000 in
/-- C8, counterexample.  The claim says that after an eviction the store
holds at most 100 entries.  The code removes exactly one entry and then
appends one, so a store that (for whatever reason) already holds 101
entries still holds 101 after the create — more than the configured
maximum. -/
theorem c8_counterexample :
    100 ≤ bigStore.entries.length ∧
    (createEvictAppend bigStore (evEntry 101)).entries.length = 101 ∧
    ¬ (createEvictAppend bigStore (evEntry 101)).entries.length ≤ 100 := by
  refine ⟨by decide, by decide, by decide⟩

/-- C8 (amended): when `create` runs on a store holding at least 100
entries, the single entry with the oldest `created_at` (the head of the
stable sort) is removed, its backing file is deleted, and the new entry
is appended; the store afterwards holds exactly as many entries as
before — at most 100 only when it held at most 100 before. -/
theorem c8_eviction_amended (st : CreateState) (e : Entry)
    (h : 100 ≤ st.entries.length) :
    (createEvictAppend st e).entries.length = st.entries.length ∧
    ∃ oldest restSorted, List.insertionSort entryLe st.entries = oldest :: restSorted ∧
      (createEvictAppend st e).entries = restSorted ++ [e] ∧
      oldest ∈ st.entries ∧
      (∀ x ∈ st.entries, strLe (createdAt oldest) (createdAt x) = true) ∧
      (createEvictAppend st e).files = st.files.filter (fun f => f ≠ entryId oldest) := by
  have hperm := List.perm_insertionSort entryLe st.entries
  cases hsort : List.insertionSort entryLe st.entries with
  | nil =>
      exfalso
      have hlen := hperm.length_eq
      rw [hsort] at hlen
      simp at hlen
      omega
  | cons oldest restSorted =>
      have hsorted := List.sorted_insertionSort entryLe st.entries
      rw [hsort] at hsorted hperm
      have hres : createEvictAppend st e =
          { entries := restSorted ++ [e],
            files := st.files.filter (fun f => f ≠ entryId oldest) } := by
        unfold createEvictAppend
        rw [if_pos h, hsort]
      refine ⟨?_, oldest, restSorted, rfl, by rw [hres], ?_, ?_, by rw [hres]⟩
      · rw [hres]
        have hlen := hperm.length_eq
        simp at hlen ⊢
        omega
      · exact hperm.mem_iff.mp (List.mem_cons_self _ _)
      · intro x hx
        have hx2 : x ∈ oldest :: restSorted := hperm.mem_iff.mpr hx
        rcases List.mem_cons.mp hx2 with rfl | hx3
        · exact strLe_refl _
        · exact (List.sorted_cons.mp hsorted).1 x hx3

set_option maxRecDepth 8000 in
/-- C8, witness for the amended theorem on a store of exactly 100
entries. -/
theorem c8_eviction_amended_witness :
    100 ≤ (CreateState.mk ((List.range 100).map evEntry) []).entries.length ∧
    ((createEvictAppend (CreateState.mk ((List.range 100).map evEntry) [])
        (evEntry 100)).entries.length =
      (CreateState.mk ((List.range 100).map evEntry) []).entries.length ∧
    ∃ oldest restSorted,
      List.insertionSort entryLe (CreateState.mk ((List.range 100).map evEntry) []).entries =
        oldest :: restSorted ∧
      (createEvictAppend (CreateState.mk ((List.range 100).map evEntry) [])
          (evEntry 100)).entries = restSorted ++ [evEntry 100] ∧
      oldest ∈ (CreateState.mk ((List.range 100).map evEntry) []).entries ∧
      (∀ x ∈ (CreateState.mk ((List.range 100).map evEntry) []).entries,
        strLe (createdAt oldest) (createdAt x) = true) ∧
      (createEvictAppend (CreateState.mk ((List.range 100).map evEntry) [])
          (evEntry 100)).files =
        (CreateState.mk ((List.range 100).map evEntry) []).files.filter
          (fun f => f ≠ entryId oldest)) :=
  ⟨by decide, c8_eviction_amended (CreateState.mk ((List.range 100).map evEntry) [])
    (evEntry 100) (by decide)⟩

/-! Model of the text codecs used by the Encoding Repair
(`fetch_html_content`, `view`, `save_url_list`, `get_url_list`).

UTF-8 encoding and decoding are implemented in full (the CPython
algorithm, including the replacement-character rule that substitutes one
U+FFFD per maximal valid subpart).  The multibyte Japanese codecs
(`shift_jis`, `euc-jp`, `cp932`, `iso-2022-jp`) are implemented with
their real byte-structure (single-byte ranges, lead/trail ranges,
truncation and error behaviour) but with the two-byte mapping table
restricted to the pairs that occur in the concrete buffers of this
development; the mapped code points are the ones CPython's codecs
produce, and every pair reached by the proofs below is either in the
table or genuinely unassigned in the codec. -/

/-- UTF-8 continuation byte. -/
def isCont (b : Nat) : Bool := 0x80 ≤ b ∧ b ≤ 0xBF

/-- Valid first continuation ranges per lead byte (CPython / RFC 3629). -/
def utf8Cont1Ok (b c1 : Nat) : Bool :=
  if b = 0xE0 then 0xA0 ≤ c1 ∧ c1 ≤ 0xBF
  else if b = 0xED then 0x80 ≤ c1 ∧ c1 ≤ 0x9F
  else if b = 0xF0 then 0x90 ≤ c1 ∧ c1 ≤ 0xBF
  else if b = 0xF4 then 0x80 ≤ c1 ∧ c1 ≤ 0x8F
  else isCont c1

/-- UTF-8 encoding of one character (Lean `Char` excludes surrogates, so
encoding never fails and `errors='ignore'` never drops anything). -/
def utf8EncodeChar (c : Char) : List Nat :=
  let n := c.toNat
  if n < 0x80 then [n]
  else if n < 0x800 then [0xC0 + n / 64, 0x80 + n % 64]
  else if n < 0x10000 then [0xE0 + n / 4096, 0x80 + (n / 64) % 64, 0x80 + n % 64]
  else [0xF0 + n / 262144, 0x80 + (n / 4096) % 64, 0x80 + (n / 64) % 64, 0x80 + n % 64]

/-- `str.encode('utf-8')`. -/
def utf8Encode (s : Str) : List Nat := (s.map utf8EncodeChar).join

/-- Strict UTF-8 decoding (`bytes.decode('utf-8')`): `none` models
`UnicodeDecodeError`. -/
def utf8DecodeStrict : List Nat → Option Str
  | [] => some []
  | b :: rest =>
      if b ≤ 0x7F then (utf8DecodeStrict rest).map (fun t => Char.ofNat b :: t)
      else if 0xC2 ≤ b ∧ b ≤ 0xDF then
        match rest with
        | c1 :: r2 =>
            if isCont c1 then
              (utf8DecodeStrict r2).map (fun t => Char.ofNat ((b - 0xC0) * 64 + (c1 - 0x80)) :: t)
            else none
        | [] => none
      else if 0xE0 ≤ b ∧ b ≤ 0xEF then
        match rest with
        | c1 :: c2 :: r2 =>
            if utf8Cont1Ok b c1 ∧ isCont c2 then
              (utf8DecodeStrict r2).map (fun t =>
                Char.ofNat ((b - 0xE0) * 4096 + (c1 - 0x80) * 64 + (c2 - 0x80)) :: t)
            else none
        | _ => none
      else if 0xF0 ≤ b ∧ b ≤ 0xF4 then
        match rest with
        | c1 :: c2 :: c3 :: r2 =>
            if utf8Cont1Ok b c1 ∧ isCont c2 ∧ isCont c3 then
              (utf8DecodeStrict r2).map (fun t =>
                Char.ofNat ((b - 0xF0) * 262144 + (c1 - 0x80) * 4096 +
                  (c2 - 0x80) * 64 + (c3 - 0x80)) :: t)
            else none
        | _ => none
      else none

/-- The replacement character U+FFFD. -/
def replacementChar : Char := Char.ofNat 0xFFFD

/-- Permissive UTF-8 decoding (`bytes.decode('utf-8', errors='replace')`):
one U+FFFD per maximal valid subpart of an ill-formed sequence. -/
def utf8DecodeReplace : List Nat → Str
  | [] => []
  | b :: rest =>
      if b ≤ 0x7F then Char.ofNat b :: utf8DecodeReplace rest
      else if 0xC2 ≤ b ∧ b ≤ 0xDF then
        match rest with
        | c1 :: r2 =>
            if isCont c1 then
              Char.ofNat ((b - 0xC0) * 64 + (c1 - 0x80)) :: utf8DecodeReplace r2
            else replacementChar :: utf8DecodeReplace (c1 :: r2)
        | [] => [replacementChar]
      else if 0xE0 ≤ b ∧ b ≤ 0xEF then
        match rest with
        | c1 :: r2 =>
            if utf8Cont1Ok b c1 then
              match r2 with
              | c2 :: r3 =>
                  if isCont c2 then
                    Char.ofNat ((b - 0xE0) * 4096 + (c1 - 0x80) * 64 + (c2 - 0x80)) ::
                      utf8DecodeReplace r3
                  else replacementChar :: utf8DecodeReplace (c2 :: r3)
              | [] => [replacementChar]
            else replacementChar :: utf8DecodeReplace (c1 :: r2)
        | [] => [replacementChar]
      else if 0xF0 ≤ b ∧ b ≤ 0xF4 then
        match rest with
        | c1 :: r2 =>
            if utf8Cont1Ok b c1 then
              match r2 with
              | c2 :: r3 =>
                  if isCont c2 then
                    match r3 with
                    | c3 :: r4 =>
                        if isCont c3 then
                          Char.ofNat ((b - 0xF0) * 262144 + (c1 - 0x80) * 4096 +
                            (c2 - 0x80) * 64 + (c3 - 0x80)) :: utf8DecodeReplace r4
                        else replacementChar :: utf8DecodeReplace (c3 :: r4)
                    | [] => [replacementChar]
                  else replacementChar :: utf8DecodeReplace (c2 :: r3)
              | [] => [replacementChar]
            else replacementChar :: utf8DecodeReplace (c1 :: r2)
        | [] => [replacementChar]
      else replacementChar :: utf8DecodeReplace rest

/-- Lead byte of a two-byte `shift_jis` sequence. -/
def sjisLead (b : Nat) : Bool := (0x81 ≤ b ∧ b ≤ 0x9F) || (0xE0 ≤ b ∧ b ≤ 0xEF)

/-- Trail byte of a two-byte `shift_jis`/`cp932` sequence. -/
def sjisTrail (b : Nat) : Bool := (0x40 ≤ b ∧ b ≤ 0x7E) || (0x80 ≤ b ∧ b ≤ 0xFC)

/-- Slice of the `shift_jis` (and `cp932`) two-byte mapping covering the
pairs reached in this development; the code points are CPython's
(`b"\xe7\xb9"` → U+90E2 郢, `b"\x9d\x42"` → U+622A 截), and the pair
(0xEF, 0xBF), also reached below, is unassigned in both codecs. -/
def sjisPair (b t : Nat) : Option Char :=
  if b = 0xE7 ∧ t = 0xB9 then some (Char.ofNat 0x90E2)
  else if b = 0x9D ∧ t = 0x42 then some (Char.ofNat 0x622A)
  else none

/-- Strict `shift_jis` decoding (ASCII, half-width katakana singles,
two-byte pairs); `none` models `UnicodeDecodeError`. -/
def sjisDecodeStrict : List Nat → Option Str
  | [] => some []
  | b :: rest =>
      if b ≤ 0x7F then (sjisDecodeStrict rest).map (fun t => Char.ofNat b :: t)
      else if 0xA1 ≤ b ∧ b ≤ 0xDF then
        (sjisDecodeStrict rest).map (fun t => Char.ofNat (0xFF61 + b - 0xA1) :: t)
      else if sjisLead b then
        match rest with
        | t :: r2 =>
            if sjisTrail t then
              match sjisPair b t with
              | some c => (sjisDecodeStrict r2).map (fun u => c :: u)
              | none => none
            else none
        | [] => none
      else none

/-- `shift_jis` decoding with `errors='ignore'`: an undecodable or
truncated sequence drops its first byte and continues (observed CPython
behaviour on the buffers below). -/
def sjisDecodeIgnore : List Nat → Str
  | [] => []
  | b :: rest =>
      if b ≤ 0x7F then Char.ofNat b :: sjisDecodeIgnore rest
      else if 0xA1 ≤ b ∧ b ≤ 0xDF then Char.ofNat (0xFF61 + b - 0xA1) :: sjisDecodeIgnore rest
      else if sjisLead b then
        match rest with
        | t :: r2 =>
            if sjisTrail t then
              match sjisPair b t with
              | some c => c :: sjisDecodeIgnore r2
              | none => sjisDecodeIgnore (t :: r2)
            else sjisDecodeIgnore (t :: r2)
        | [] => []
      else sjisDecodeIgnore rest

/-- Slice of the `euc-jp` two-byte mapping for the pairs reached here
(CPython: `b"\xe7\xb9"` → U+81B5 膵). -/
def eucjpPair (b t : Nat) : Option Char :=
  if b = 0xE7 ∧ t = 0xB9 then some (Char.ofNat 0x81B5)
  else none

/-- Strict `euc-jp` decoding. -/
def eucjpDecodeStrict : List Nat → Option Str
  | [] => some []
  | b :: rest =>
      if b ≤ 0x7F then (eucjpDecodeStrict rest).map (fun t => Char.ofNat b :: t)
      else if b = 0x8E then
        match rest with
        | t :: r2 =>
            if 0xA1 ≤ t ∧ t ≤ 0xDF then
              (eucjpDecodeStrict r2).map (fun u => Char.ofNat (0xFF61 + t - 0xA1) :: u)
            else none
        | [] => none
      else if 0xA1 ≤ b ∧ b ≤ 0xFE then
        match rest with
        | t :: r2 =>
            if 0xA1 ≤ t ∧ t ≤ 0xFE then
              match eucjpPair b t with
              | some c => (eucjpDecodeStrict r2).map (fun u => c :: u)
              | none => none
            else none
        | [] => none
      else none

/-- `euc-jp` decoding with `errors='ignore'` (first byte of a bad
sequence dropped). -/
def eucjpDecodeIgnore : List Nat → Str
  | [] => []
  | b :: rest =>
      if b ≤ 0x7F then Char.ofNat b :: eucjpDecodeIgnore rest
      else if b = 0x8E then
        match rest with
        | t :: r2 =>
            if 0xA1 ≤ t ∧ t ≤ 0xDF then Char.ofNat (0xFF61 + t - 0xA1) :: eucjpDecodeIgnore r2
            else eucjpDecodeIgnore (t :: r2)
        | [] => []
      else if 0xA1 ≤ b ∧ b ≤ 0xFE then
        match rest with
        | t :: r2 =>
            if 0xA1 ≤ t ∧ t ≤ 0xFE then
              match eucjpPair b t with
              | some c => c :: eucjpDecodeIgnore r2
              | none => eucjpDecodeIgnore (t :: r2)
            else eucjpDecodeIgnore (t :: r2)
        | [] => []
      else eucjpDecodeIgnore rest

/-- Lead byte of a two-byte `cp932` sequence (wider than `shift_jis`). -/
def cp932Lead (b : Nat) : Bool := (0x81 ≤ b ∧ b ≤ 0x9F) || (0xE0 ≤ b ∧ b ≤ 0xFC)

/-- Strict `cp932` decoding; singles 0xFD–0xFF map to U+F8F1–U+F8F3. -/
def cp932DecodeStrict : List Nat → Option Str
  | [] => some []
  | b :: rest =>
      if b ≤ 0x7F then (cp932DecodeStrict rest).map (fun t => Char.ofNat b :: t)
      else if 0xA1 ≤ b ∧ b ≤ 0xDF then
        (cp932DecodeStrict rest).map (fun t => Char.ofNat (0xFF61 + b - 0xA1) :: t)
      else if 0xFD ≤ b ∧ b ≤ 0xFF then
        (cp932DecodeStrict rest).map (fun t => Char.ofNat (0xF8F1 + b - 0xFD) :: t)
      else if cp932Lead b then
        match rest with
        | t :: r2 =>
            if sjisTrail t then
              match sjisPair b t with
              | some c => (cp932DecodeStrict r2).map (fun u => c :: u)
              | none => none
            else none
        | [] => none
      else none

/-- `cp932` decoding with `errors='ignore'`. -/
def cp932DecodeIgnore : List Nat → Str
  | [] => []
  | b :: rest =>
      if b ≤ 0x7F then Char.ofNat b :: cp932DecodeIgnore rest
      else if 0xA1 ≤ b ∧ b ≤ 0xDF then Char.ofNat (0xFF61 + b - 0xA1) :: cp932DecodeIgnore rest
      else if 0xFD ≤ b ∧ b ≤ 0xFF then Char.ofNat (0xF8F1 + b - 0xFD) :: cp932DecodeIgnore rest
      else if cp932Lead b then
        match rest with
        | t :: r2 =>
            if sjisTrail t then
              match sjisPair b t with
              | some c => c :: cp932DecodeIgnore r2
              | none => cp932DecodeIgnore (t :: r2)
            else cp932DecodeIgnore (t :: r2)
        | [] => []
      else cp932DecodeIgnore rest

/-- Strict `iso-2022-jp` decoding, modelled for its ASCII state only: any
byte above 0x7F is an error, as is the escape byte 0x1B (no buffer in
this development contains escape sequences). -/
def iso2022jpDecodeStrict : List Nat → Option Str
  | [] => some []
  | b :: rest =>
      if b ≤ 0x7F ∧ b ≠ 0x1B then
        (iso2022jpDecodeStrict rest).map (fun t => Char.ofNat b :: t)
      else none

/-- `iso-2022-jp` decoding with `errors='ignore'` (same ASCII-state
model; bad bytes dropped). -/
def iso2022jpDecodeIgnore : List Nat → Str
  | [] => []
  | b :: rest =>
      if b ≤ 0x7F ∧ b ≠ 0x1B then Char.ofNat b :: iso2022jpDecodeIgnore rest
      else iso2022jpDecodeIgnore rest

/-- The mojibake heuristic: presence of either marker character
(`'繝' in s or '縺' in s`). -/
def hasMojibake (s : Str) : Bool := s.contains '繝' || s.contains '縺'

/-- The candidate list `['shift_jis', 'euc-jp', 'cp932', 'iso-2022-jp']`
as `errors='ignore'` decoders, in the program's fixed order. -/
def repairCandidates : List (List Nat → Str) :=
  [sjisDecodeIgnore, eucjpDecodeIgnore, cp932DecodeIgnore, iso2022jpDecodeIgnore]

/-- First candidate whose decoded text clears the heuristic. -/
def firstClearDecode : List (List Nat → Str) → List Nat → Option Str
  | [], _ => none
  | d :: ds, bs =>
      let t := d bs
      if hasMojibake t = false then some t else firstClearDecode ds bs

/-- The initial decode chain of `view` (lines 578–601): strict UTF-8,
then each candidate strictly (first success wins, no marker check), then
permissive UTF-8. -/
def viewDecode (raw : List Nat) : Str :=
  match utf8DecodeStrict raw with
  | some s => s
  | none =>
      match sjisDecodeStrict raw with
      | some s => s
      | none =>
          match eucjpDecodeStrict raw with
          | some s => s
          | none =>
              match cp932DecodeStrict raw with
              | some s => s
              | none =>
                  match iso2022jpDecodeStrict raw with
                  | some s => s
                  | none => utf8DecodeReplace raw

/-- The pattern table of `view`'s third repair stage. -/
def viewMojibakeFixes : List (Str × Str) :=
  [(str "繧ｫ繧ｿ繧ｫ繝", str "カタカナ"), (str "鬮倥＆", str "高さ"),
   (str "讌ｽ螢ｫ", str "楽天"), (str "髮ｻ蟄", str "電子"),
   (str "繝｡繝ｼ繧ｫ繝ｼ", str "メーカー")]

/-- Stage three of `view`'s repair: apply the pattern table. -/
def applyCommonMojibake (s : Str) : Str :=
  viewMojibakeFixes.foldl
    (fun acc pr => if containsSub pr.1 acc then replaceSub pr.1 pr.2 acc else acc) s

/-- The marker-repair block of `view` (lines 604–660).  Stage one
re-encodes the already-decoded string as UTF-8 and re-decodes it with
each candidate (`html_content.encode('utf-8', errors='ignore')
.decode(encoding, errors='ignore')`); stage two falls back to the raw
buffer; stage three applies the pattern table and keeps the result only
if it lowers the `'繝'` count. -/
def viewRepair (html : Str) (raw : List Nat) : Str :=
  if hasMojibake html then
    let h1 := match firstClearDecode repairCandidates (utf8Encode html) with
      | some t => t
      | none => html
    let h2 := if hasMojibake h1 then
        match firstClearDecode repairCandidates raw with
        | some t => t
        | none => h1
      else h1
    if hasMojibake h2 then
      let fixed := applyCommonMojibake h2
      if countSub (str "繝") fixed < countSub (str "繝") h2 then fixed else h2
    else h2
  else html

/-- Decode-and-repair pipeline of `view` on the stored raw bytes. -/
def viewProcess (raw : List Nat) : Str := viewRepair (viewDecode raw) raw

/-- The marker-repair block of `fetch_html_content` (lines 175–192): when
the decoded text carries markers, re-decode the original byte buffer
(`response.content`) with each candidate in order and accept the first
that clears the heuristic, else keep the text. -/
def fetchRepair (text : Str) (content : List Nat) : Str :=
  if hasMojibake text then
    match firstClearDecode repairCandidates content with
    | some t => t
    | none => text
  else text

/-- Following the spec's words (§4.2 step 3): if garbling is detected,
re-decode the original byte buffer — never the already-mis-decoded
string — with each candidate encoding in turn and accept the first whose
decoded text clears the heuristic. -/
def specRepairRawBuffer (html : Str) (raw : List Nat) : Str :=
  if hasMojibake html then
    match firstClearDecode repairCandidates raw with
    | some t => t
    | none => html
  else html

/-- The raw buffer of the C3 counterexample: `A`, the UTF-8 bytes of the
marker `繝`, `B`, and a lone 0x81 that makes every strict decode fail. -/
def c3raw : List Nat := [0x41, 0xE7, 0xB9, 0x9D, 0x42, 0x81]

/-- C3, counterexample.  The claim says every mojibake-repairing code
path — the view handler included — re-decodes the original byte buffer
and never re-encodes the already-mis-decoded string.  On `c3raw` the
view handler's first repair stage re-encodes the replacement-decoded
string and accepts its `shift_jis` re-decode (`"A郢截ｿｽ"`), while
re-decoding the raw buffer as the claim prescribes yields `"A郢截"`:
the two differ, and the handler's result is exactly the re-encoded
round trip. -/
theorem c3_counterexample :
    viewDecode c3raw = [ 'A', '繝', 'B', replacementChar] ∧
    viewProcess c3raw = sjisDecodeIgnore (utf8Encode (viewDecode c3raw)) ∧
    viewProcess c3raw = str "A郢截ｿｽ" ∧
    specRepairRawBuffer (viewDecode c3raw) c3raw = str "A郢截" ∧
    viewProcess c3raw ≠ specRepairRawBuffer (viewDecode c3raw) c3raw := by
  refine ⟨by decide, by decide, by decide, by decide, by decide⟩

/-- C3 (amended): the fetch path (`fetch_html_content`) does repair from
the original byte buffer exactly as the spec prescribes — candidates in
fixed order on `response.content`, first clearing decode accepted; the
view handler instead re-encodes the already-decoded string first and
consults the raw buffer only if markers persist (see the
counterexample). -/
theorem c3_fetch_uses_raw_buffer_amended (text : Str) (content : List Nat) :
    fetchRepair text content = specRepairRawBuffer text content := rfl

/-! Model of `save_url_list` (lines 117–147), `delete` (lines 927–950),
`update_click_count` (lines 1142–1158) and the final dispatch of `view`
(lines 896–917).  The file write itself is modelled as succeeding
(`save_url_list` returns `True`); storage failures are out of scope of
the claims below. -/

/-- The per-field mojibake fix of `save_url_list`: a string field carrying
a marker is re-encoded as UTF-8 and re-decoded with each candidate,
keeping the first marker-free result. -/
def fixFieldValue (v : Str) : Str :=
  if hasMojibake v then
    match firstClearDecode repairCandidates (utf8Encode v) with
    | some t => t
    | none => v
  else v

/-- `save_url_list`'s field loop over one entry. -/
def fixEntry (e : Entry) : Entry :=
  e.map (fun p =>
    match p.2 with
    | PyVal.s v => (p.1, PyVal.s (fixFieldValue v))
    | _ => p)

/-- The entry-list transformation performed by `save_url_list` before the
write. -/
def save_url_list_fix (l : List Entry) : List Entry := l.map fixEntry

/-- Python `!=` between an entry field value and a string id (values of a
different type are simply unequal). -/
def pyValNeStr (v : PyVal) (s : Str) : Bool :=
  match v with
  | PyVal.s w => w ≠ s
  | _ => true

/-- The list comprehension `[url for url in url_list if url['id'] !=
file_id]`; `none` models the `KeyError` raised by `url['id']` on an
entry without an `id` field. -/
def filterEntriesById (l : List Entry) (fid : Str) : Option (List Entry) :=
  match l with
  | [] => some []
  | e :: rest =>
      match entryGet e (str "id") with
      | none => none
      | some v =>
          match filterEntriesById rest fid with
          | none => none
          | some tail => some (if pyValNeStr v fid then e :: tail else tail)

/-- The flash shown by `delete` on its normal path. -/
def deleteSuccessFlash : Str × Str := (str "URLが正常に削除されました！", str "success")

/-- The flash shown when `delete`'s body raises (outer `except`). -/
def deleteErrorFlash : Str × Str := (str "削除中にエラーが発生しました", str "error")

/-- The `delete` route: remove the backing file if it exists, drop the
matching entry from the list, save, and flash; an exception while
filtering reaches the outer handler after the file removal already
happened. -/
def deleteOp (st : CreateState) (fid : Str) : CreateState × (Str × Str) :=
  let files2 := st.files.filter (fun f => f ≠ fid)
  match filterEntriesById st.entries fid with
  | none => ({ entries := st.entries, files := files2 }, deleteErrorFlash)
  | some kept => ({ entries := save_url_list_fix kept, files := files2 }, deleteSuccessFlash)

/-- A one-entry store used by the delete counterexample. -/
def deleteStore : CreateState :=
  { entries := [[(str "id", PyVal.s (str "e1")),
      (str "created_at", PyVal.s (str "2024-01-01 00:00:00"))]],
    files := [str "e1"] }

/-- C4, counterexample.  The claim says deleting a nonexistent id returns
a "not found"-style outcome.  The code flashes the very same success
message as a real deletion (`'URLが正常に削除されました！', 'success'`),
so the outcome does not distinguish a missing id at all. -/
theorem c4_counterexample :
    (deleteOp deleteStore (str "ghost")).2 = (deleteOp deleteStore (str "e1")).2 ∧
    (deleteOp deleteStore (str "ghost")).2 = deleteSuccessFlash := by
  refine ⟨by decide, by decide⟩

/-- Marker-freedom of one entry, as a decidable check. -/
def entryMarkerFree (e : Entry) : Bool :=
  e.all (fun p =>
    match p.2 with
    | PyVal.s v => ¬ hasMojibake v
    | _ => true)

/-- The entry has a string `id` field different from `fid`. -/
def entryIdNe (fid : Str) (e : Entry) : Bool :=
  match entryGet e (str "id") with
  | some (PyVal.s v) => v ≠ fid
  | _ => false

/-- Marker-free entries are fixed by `save_url_list`'s field loop. -/
theorem fixEntry_noop {e : Entry} (h : entryMarkerFree e = true) : fixEntry e = e := by
  unfold fixEntry entryMarkerFree at *
  induction e with
  | nil => rfl
  | cons p rest ih =>
      rw [List.all_cons, Bool.and_eq_true] at h
      simp only [List.map_cons]
      rw [ih h.2]
      obtain ⟨a, b⟩ := p
      cases b with
      | s v =>
          have hm : hasMojibake v = false := by
            have := h.1
            simpa using this
          have hfix : fixFieldValue v = v := by
            unfold fixFieldValue
            rw [if_neg (by rw [hm]; exact Bool.false_ne_true)]
          simp [hfix]
      | i n => rfl
      | b bv => rfl

/-- Marker-free entry lists are fixed by `save_url_list`. -/
theorem save_fix_noop {l : List Entry} (h : l.all entryMarkerFree = true) :
    save_url_list_fix l = l := by
  unfold save_url_list_fix
  induction l with
  | nil => rfl
  | cons e rest ih =>
      rw [List.all_cons, Bool.and_eq_true] at h
      simp only [List.map_cons]
      rw [fixEntry_noop h.1, ih h.2]

/-- Entries whose `id` differs from the target all survive the filter. -/
theorem filterEntriesById_noop {l : List Entry} {fid : Str}
    (h : l.all (entryIdNe fid) = true) : filterEntriesById l fid = some l := by
  induction l with
  | nil => rfl
  | cons e rest ih =>
      rw [List.all_cons, Bool.and_eq_true] at h
      have h1 := h.1
      unfold entryIdNe at h1
      unfold filterEntriesById
      cases hg : entryGet e (str "id") with
      | none =>
          rw [hg] at h1
          simp at h1
      | some v =>
          rw [hg] at h1
          cases v with
          | s w =>
              rw [ih h.2]
              have hne : pyValNeStr (PyVal.s w) fid = true := by
                simpa [pyValNeStr] using h1
              simp [hne]
          | i n => simp at h1
          | b bv => simp at h1

/-- C4 (amended): deleting an id that names no entry and no file raises
no exception, leaves the entry store unchanged — provided no stored
string field carries a mojibake marker, since `save_url_list` rewrites
such fields on every save — and flashes the same generic success message
as a real deletion rather than a "not found" outcome. -/
theorem c4_delete_missing_amended (st : CreateState) (fid : Str)
    (h1 : st.entries.all (entryIdNe fid) = true)
    (h2 : st.entries.all entryMarkerFree = true)
    (h3 : st.files.contains fid = false) :
    deleteOp st fid = (st, deleteSuccessFlash) := by
  obtain ⟨en, fs⟩ := st
  unfold deleteOp
  dsimp only at h1 h2 h3 ⊢
  rw [filterEntriesById_noop h1]
  dsimp only
  have hfiles : fs.filter (fun f => f ≠ fid) = fs := by
    rw [List.filter_eq_self]
    intro a ha
    simp only [decide_eq_true_eq]
    intro hval
    rw [hval] at ha
    have hc : List.elem fid fs = true := List.elem_iff.mpr ha
    have hcc : fs.contains fid = true := hc
    rw [hcc] at h3
    exact absurd h3 (by simp)
  rw [hfiles, save_fix_noop h2]

/-- C4, witness for the amended theorem. -/
theorem c4_delete_missing_amended_witness :
    (deleteStore.entries.all (entryIdNe (str "ghost")) = true ∧
      deleteStore.entries.all entryMarkerFree = true ∧
      deleteStore.files.contains (str "ghost") = false) ∧
    deleteOp deleteStore (str "ghost") = (deleteStore, deleteSuccessFlash) :=
  ⟨⟨by decide, by decide, by decide⟩,
    c4_delete_missing_amended deleteStore (str "ghost") (by decide) (by decide) (by decide)⟩

/-- Python truthiness of `url.get('youtube')` (absent key is `None`,
hence falsy). -/
def pyTruthy : Option PyVal → Bool
  | none => false
  | some (PyVal.s v) => v ≠ []
  | some (PyVal.i n) => n ≠ 0
  | some (PyVal.b b) => b

/-- `url[key] = value` on a record: overwrite in place, or append. -/
def setField : Entry → Str → PyVal → Entry
  | [], k, v => [(k, v)]
  | p :: rest, k, v => if p.1 = k then (k, v) :: rest else p :: setField rest k v

/-- The body of `update_click_count`'s loop: find the first entry with
the id, initialise `clicks` to 0 if absent, increment it, stamp
`last_accessed`; `none` when no entry matches (nothing saved) or when
`clicks` holds a non-integer (the `TypeError` is caught and nothing is
saved). -/
def updateFirstById : List Entry → Str → Str → Option (List Entry)
  | [], _, _ => none
  | e :: rest, fid, now =>
      if entryGet e (str "id") = some (PyVal.s fid) then
        match entryGet e (str "clicks") with
        | none =>
            some (setField (setField e (str "clicks") (PyVal.i 1))
              (str "last_accessed") (PyVal.s now) :: rest)
        | some (PyVal.i n) =>
            some (setField (setField e (str "clicks") (PyVal.i (n + 1)))
              (str "last_accessed") (PyVal.s now) :: rest)
        | some _ => none
      else (updateFirstById rest fid now).map (e :: ·)

/-- `update_click_count` (lines 1142–1158): update the first matching
entry and save the whole list (which applies `save_url_list`'s field
fixes); leave the store alone when nothing matched or the update
raised. -/
def update_click_count (l : List Entry) (fid now : Str) : List Entry :=
  match updateFirstById l fid now with
  | some l2 => save_url_list_fix l2
  | none => l

/-- The final dispatch of `view` (lines 896–917): a youtube entry is
returned as-is; otherwise the TikTok-pixel script and CSS-debug script
(passed here as the two script arguments, in the program the fixed
constants of lines 686–895) are inserted before `</head>`, or after the
`<body …>` opening tag, or prepended, and the click count is updated. -/
def viewDispatch (ent : Entry) (html : Str) (tiktok cssdbg : Str)
    (store : List Entry) (fid now : Str) : Str × List Entry :=
  if pyTruthy (entryGet ent (str "youtube")) then (html, store)
  else
    let injected :=
      match findSub (str "</head>") html with
      | some i => html.take i ++ tiktok ++ cssdbg ++ html.drop i
      | none =>
          match findSub (str "<body") html with
          | some j =>
              match findSub (str ">") (html.drop j) with
              | some k => html.take (j + k + 1) ++ tiktok ++ cssdbg ++ html.drop (j + k + 1)
              | none => html
          | none => tiktok ++ cssdbg ++ html
    (injected, update_click_count store fid now)

/-- C9: for every stored entry whose record has a truthy `youtube` field,
`view` returns the document unchanged — neither the TikTok-pixel script
nor the CSS-debug script is appended — and the entry store is left
untouched: no click increment, no `last_accessed` stamp (the early
return happens before `update_click_count`). -/
theorem c9_youtube_passthrough (ent : Entry) (html : Str) (tiktok cssdbg : Str)
    (store : List Entry) (fid now : Str)
    (h : pyTruthy (entryGet ent (str "youtube")) = true) :
    viewDispatch ent html tiktok cssdbg store fid now = (html, store) := by
  unfold viewDispatch
  rw [if_pos h]

/-- C9, witness: a concrete youtube entry is passed through while the
same store with a non-youtube entry is modified. -/
theorem c9_youtube_passthrough_witness :
    pyTruthy (entryGet [(str "id", PyVal.s (str "e1")), (str "youtube", PyVal.b true)]
      (str "youtube")) = true ∧
    viewDispatch [(str "id", PyVal.s (str "e1")), (str "youtube", PyVal.b true)]
        (str "<html><head></head><body>x</body></html>") (str "[T]") (str "[C]")
        [[(str "id", PyVal.s (str "e1")), (str "clicks", PyVal.i 3)]]
        (str "e1") (str "2024-01-02 00:00:00") =
      (str "<html><head></head><body>x</body></html>",
        [[(str "id", PyVal.s (str "e1")), (str "clicks", PyVal.i 3)]]) :=
  ⟨by decide, c9_youtube_passthrough _ _ _ _ _ _ _ (by decide)⟩


/- ===================== C10: get_url_list ===================== -/

/-- JSON values as parsed by `json.load` / `json.loads`. -/
inductive Json where
  | null : Json
  | jb : Bool → Json
  | jn : Int → Json
  | js : Str → Json
  | arr : List Json → Json
  | obj : List (Str × Json) → Json

/-- The state of `url_list.json` on disk when `get_url_list` runs:
absent, present but not opening (an `OSError` on read), present but not
valid JSON (`json.JSONDecodeError`), or parsed to a JSON value. -/
inductive FileState where
  | missing : FileState
  | readError : FileState
  | unparsable : FileState
  | parsed : Json → FileState

/-- Python iteration `for url in url_list` over a parsed JSON value:
arrays yield their elements, objects yield their keys (as strings),
strings yield their one-character substrings; other values raise
`TypeError` (modelled as `Except.error`). -/
def pyIter : Json → Except Unit (List Json)
  | Json.arr l => Except.ok l
  | Json.obj l => Except.ok (l.map (fun p => Json.js p.1))
  | Json.js s => Except.ok (s.map (fun c => Json.js [c]))
  | _ => Except.error ()

/-- Python `url.items()`: succeeds only on a JSON object (a `dict`);
every other value raises `AttributeError`. -/
def pyItems : Json → Except Unit (List (Str × Json))
  | Json.obj l => Except.ok l
  | _ => Except.error ()

/-- `isinstance(value, str) and ('繝' in value or '縺' in value)`. -/
def jsonFieldMarker (v : Json) : Bool :=
  match v with
  | Json.js s => hasMojibake s
  | _ => false

/-- The mojibake scan of `get_url_list` (src/app.py:59-66 and 83-90):
walk the entries in order, call `.items()` on each and test its string
fields, stopping at the first entry that carries a marker. A non-dict
entry reached before any marker raises (`Except.error`), exactly as the
Python loop does. -/
def scanList : List Json → Except Unit Bool
  | [] => Except.ok false
  | u :: rest =>
      match pyItems u with
      | Except.error e => Except.error e
      | Except.ok items =>
          if items.any (fun p => jsonFieldMarker p.2) then Except.ok true
          else scanList rest

/-- Outcome of iterating and scanning a parsed value for markers:
`Except.error` when the Python loop raises, `Except.ok b` when it
finishes with `has_mojibake = b`. -/
def scanOutcome (j : Json) : Except Unit Bool :=
  match pyIter j with
  | Except.error e => Except.error e
  | Except.ok entries => scanList entries

/-- A retry candidate is adopted when its value iterates and scans
clean; a raise during its scan is swallowed by the inner `except`
(src/app.py:101-102) and the loop moves on. -/
def repairCandidate (j : Json) : Bool :=
  match scanOutcome j with
  | Except.ok false => true
  | _ => false

/-- The encoding-retry loop of `get_url_list` (src/app.py:71-102).
`oracle` lists, for the encodings tried in order, the JSON value the
re-decoded file contents parse to (`none` when the read or `json.loads`
raises, which the inner `except` swallows). The first candidate that
iterates and scans clean is adopted and written back. If no candidate
is clean the original value is kept and the file is untouched. -/
def repairLoop (orig : Json) : List (Option Json) → Json × FileState
  | [] => (orig, FileState.parsed orig)
  | none :: rest => repairLoop orig rest
  | some j :: rest =>
      if repairCandidate j then (j, FileState.parsed j)
      else repairLoop orig rest

/-- `get_url_list` (src/app.py:46-114), returning the Python value it
produces together with the resulting file state. A missing file is
created as `[]` and read back; a `json.JSONDecodeError` rewrites the
file to `[]` and returns `[]`; any other exception — including the
`TypeError`/`AttributeError` the mojibake scan raises on non-list or
non-dict data, which only the OUTER `except Exception` catches — makes
the function return `[]` with the file untouched. When the file parses
and the scan finds no marker, the parsed value is returned as is, even
when it is not a list. All exception paths are internal (`Except`
values resolved here), so the function is total: nothing propagates. -/
def get_url_list (fs : FileState) (oracle : List (Option Json)) : Json × FileState :=
  match fs with
  | FileState.missing => (Json.arr [], FileState.parsed (Json.arr []))
  | FileState.readError => (Json.arr [], FileState.readError)
  | FileState.unparsable => (Json.arr [], FileState.parsed (Json.arr []))
  | FileState.parsed j =>
      match scanOutcome j with
      | Except.error _ => (Json.arr [], FileState.parsed j)
      | Except.ok true => repairLoop j oracle
      | Except.ok false => (j, FileState.parsed j)

/-- The value is a JSON list. -/
def isJsonList : Json → Bool
  | Json.arr _ => true
  | _ => false

/-- The repair loop either keeps the original value or adopts one of
the oracle's candidates. -/
theorem repairLoop_spec (orig : Json) (oracle : List (Option Json)) :
    (repairLoop orig oracle).1 = orig ∨ some (repairLoop orig oracle).1 ∈ oracle := by
  induction oracle with
  | nil => left; rfl
  | cons o rest ih =>
      cases o with
      | none =>
          cases ih with
          | inl h => left; exact h
          | inr h => right; exact List.mem_cons_of_mem _ h
      | some j =>
          by_cases hc : repairCandidate j = true
          · right
            have heq : repairLoop orig (some j :: rest) = (j, FileState.parsed j) := by
              simp only [repairLoop]
              rw [if_pos hc]
            rw [heq]
            exact List.mem_cons_self _ _
          · have heq : repairLoop orig (some j :: rest) = repairLoop orig rest := by
              simp only [repairLoop]
              rw [if_neg hc]
            rw [heq]
            cases ih with
            | inl h => left; exact h
            | inr h => right; exact List.mem_cons_of_mem _ h

/-- C10, counterexample: a file whose contents are the empty JSON
object `{}`. `json.load` succeeds, the mojibake scan iterates the
dict's (zero) keys without raising, and the dict itself is returned:
`get_url_list` returns a non-list value and does not rewrite the file. -/
theorem c10_counterexample :
    get_url_list (FileState.parsed (Json.obj [])) [] =
      (Json.obj [], FileState.parsed (Json.obj [])) ∧
    isJsonList (Json.obj []) = false :=
  ⟨rfl, rfl⟩

/-- C10 (amended): `get_url_list` never propagates an exception (the
model is total, every raise is resolved internally): a missing file is
created as an empty list and the empty list is returned; contents that
fail JSON parsing make it rewrite the file to an empty list and return
the empty list; any other read error returns the empty list with the
file untouched. But it does not always return a list: when the file
parses, the returned value is the empty list (only if the scan raises),
the parsed value itself — a non-list such as `{}` included — or a
value adopted from one of the retry decodings. -/
theorem c10_error_handling_amended :
    (∀ oracle, get_url_list FileState.missing oracle =
        (Json.arr [], FileState.parsed (Json.arr []))) ∧
    (∀ oracle, get_url_list FileState.unparsable oracle =
        (Json.arr [], FileState.parsed (Json.arr []))) ∧
    (∀ oracle, get_url_list FileState.readError oracle =
        (Json.arr [], FileState.readError)) ∧
    (∀ j oracle, (get_url_list (FileState.parsed j) oracle).1 = Json.arr [] ∨
        (get_url_list (FileState.parsed j) oracle).1 = j ∨
        some ((get_url_list (FileState.parsed j) oracle).1) ∈ oracle) := by
  refine ⟨fun _ => rfl, fun _ => rfl, fun _ => rfl, fun j oracle => ?_⟩
  simp only [get_url_list]
  cases scanOutcome j with
  | error e => left; rfl
  | ok b =>
      cases b with
      | false => right; left; rfl
      | true =>
          cases repairLoop_spec j oracle with
          | inl h => right; left; exact h
          | inr h => right; right; exact h

/- ===================== C5: head/script injection in create ===================== -/

/-- Verbatim constant of `create` (src/app.py:259-307, the literal before the spliced pixel code). -/
def pixelScriptPre : Str :=
  str "\n<!-- TikTok Pixel（非表示要素方式） -->\n<script type=\"text/javascript\">\n// ピクセルコードは独立したスコープで実行し、グローバル変数の競合を防ぐ\n(function() \x7b\n    // ページが完全に読み込まれてから実行することで、DOM操作の競合を防ぐ\n    function loadTikTokPixel() \x7b\n        try \x7b\n            // CSS競合を防ぐために完全に独立したコンテナを作成\n    var pixelContainer = document.createElement('div');\n            pixelContainer.id = 'tiktok-pixel-container';\n            pixelContainer.setAttribute('aria-hidden', 'true');\n            pixelContainer.style.cssText = 'position:absolute!important;width:0!important;height:0!important;overflow:hidden!important;opacity:0!important;pointer-events:none!important;display:none!important;left:-9999px!important;top:-9999px!important;';\n            \n            // shadowDOM使用 - 完全にメインページから隔離\n            var shadow = null;\n            try \x7b\n                // Mode: closed でCSSの競合を完全に防ぐ\n                shadow = pixelContainer.attachShadow(\x7bmode: 'closed'\x7d);\n            \x7d catch(e) \x7b\n                console.error('ShadowDOM非対応: フォールバック使用', e);\n            \x7d\n            \n            // スクリプト要素（ピクセル用）\n    var pixelScript = document.createElement('script');\n    pixelScript.type = 'text/javascript';\n            pixelScript.async = true;\n            \n            // ピクセルコードを独立スコープに閉じ込める\n            pixelScript.textContent = `\n                // ピクセルコードを実行する前にグローバル変数と名前空間を保護\n                (function(w, d) \x7b\n                    try \x7b\n                        // オリジナルのJavaScriptオブジェクトを保存\n                        var _origDefineProperty = Object.defineProperty;\n                        var _origGetComputedStyle = window.getComputedStyle;\n                        \n                        // CSSとDOMへの干渉を防ぐためのラッパー関数\n                        window.getComputedStyle = function(el) \x7b\n                            try \x7b\n                                return _origGetComputedStyle.apply(this, arguments);\n                            \x7d catch(e) \x7b\n                                // エラー時にはダミーのCSSオブジェクトを返す\n                                return \x7bgetPropertyValue: function() \x7b return ''; \x7d\x7d;\n                            \x7d\n                        \x7d;\n                        \n                        // ピクセルコード実行\n                        "

/-- Verbatim constant of `create` (src/app.py:307-370, the literal after the spliced pixel code). -/
def pixelScriptPost : Str :=
  str "\n                        \n                        // 元のグローバル関数を復元\n                        window.getComputedStyle = _origGetComputedStyle;\n                    \x7d catch(e) \x7b\n                        console.error('[TikTok]: ピクセル実行エラー', e);\n                    \x7d\n                \x7d)(window, document);\n            `;\n            \n            // shadowDOMが利用可能ならそこに追加、そうでなければ直接コンテナに追加\n            if (shadow) \x7b\n                // shadowDOM内のスタイル定義 - 外部に影響しない\n                var shadowStyle = document.createElement('style');\n                shadowStyle.textContent = 'div \x7b all: initial !important; \x7d';\n                shadow.appendChild(shadowStyle);\n                \n                var innerContainer = document.createElement('div');\n                innerContainer.style.cssText = 'all: initial !important; visibility: hidden !important; position: absolute !important; width: 0 !important; height: 0 !important;';\n                innerContainer.appendChild(pixelScript);\n                shadow.appendChild(innerContainer);\n            \x7d else \x7b\n    pixelContainer.appendChild(pixelScript);\n            \x7d\n            \n            // コンテナをbodyではなくheadに追加することでCSSの衝突を減らす\n            if (document.head) \x7b\n                document.head.appendChild(pixelContainer);\n            \x7d else \x7b\n                window.addEventListener('DOMContentLoaded', function() \x7b\n                    if (document.head) document.head.appendChild(pixelContainer);\n                    else if (document.body) document.body.appendChild(pixelContainer);\n                \x7d);\n            \x7d\n            \n            // 5秒後にピクセルコンテナを削除してメモリリークを防止\n            setTimeout(function() \x7b\n                try \x7b\n                    if (document.contains(pixelContainer)) \x7b\n                        pixelContainer.parentNode.removeChild(pixelContainer);\n                    \x7d\n                \x7d catch(e) \x7b\n                    console.error('[TikTok]: クリーンアップエラー', e);\n                \x7d\n            \x7d, 5000);\n        \x7d catch(err) \x7b\n            // エラーをサイレントに処理（ユーザーに表示されないよう）\n            console.error('[TikTok]: Pixel設定エラー', err);\n        \x7d\n    \x7d\n    \n    // ページの読み込みステータスに応じた実行タイミング制御\n    if (document.readyState === 'complete') \x7b\n        // すでにページが読み込み完了している場合\n        setTimeout(loadTikTokPixel, 2000);\n    \x7d else \x7b\n        // ページ読み込み完了後に実行\n        window.addEventListener('load', function() \x7b\n            setTimeout(loadTikTokPixel, 2000);\n        \x7d);\n    \x7d\n\x7d)();\n</script>\n"

/-- Verbatim constant of `create` (src/app.py:389-438, css_reset). -/
def cssReset : Str :=
  str "\n<!-- TikTok Pixel用スタイル分離 -->\n<style id=\"tiktok-pixel-isolation\">\n/* TikTok Pixel用の隔離スタイル - メインページのスタイルに影響しないよう隔離 */\n#tiktok-pixel-container,\niframe[title=\"TikTok Pixel\"],\n.ttq-loading, .ttq-confirm, .ttq-pixel-base, .ttq-transport-frame \x7b\n    all: initial !important;\n    position: absolute !important;\n    width: 1px !important;\n    height: 1px !important;\n    padding: 0 !important;\n    margin: -1px !important;\n    overflow: hidden !important;\n    clip: rect(0, 0, 0, 0) !important;\n    white-space: nowrap !important;\n    border: 0 !important;\n    display: none !important;\n    opacity: 0 !important;\n    visibility: hidden !important;\n    pointer-events: none !important;\n    z-index: -9999 !important;\n\x7d\n\n/* 元のページのアニメーションとCSSを保護するためのリセット */\n#css-debug-toolbar * \x7b\n    all: initial !important;\n    box-sizing: border-box !important;\n    font-family: sans-serif !important;\n\x7d\n\n/* グローバルなCSSリセット防止 - 外部スクリプトがページ全体のスタイルをリセットすることを防ぐ */\nhtml, body, div:not(#tiktok-pixel-container):not(#css-debug-toolbar), span, applet, object, iframe:not([title=\"TikTok Pixel\"]),\nh1, h2, h3, h4, h5, h6, p, blockquote, pre, a, abbr, acronym, address, big, cite, code,\ndel, dfn, em, img, ins, kbd, q, s, samp, small, strike, strong, sub, sup, tt, var,\nb, u, i, center, dl, dt, dd, ol, ul, li, fieldset, form, label, legend,\ntable, caption, tbody, tfoot, thead, tr, th, td, article, aside, canvas, details,\nembed, figure, figcaption, footer, header, hgroup, menu, nav, output, ruby,\nsection, summary, time, mark, audio, video \x7b\n    animation-play-state: running !important;\n    transition: all 0.3s ease !important;\n\x7d\n\n/* アニメーション保護 */\n@keyframes preserve-animations \x7b\n    from \x7b opacity: 1; \x7d\n    to \x7b opacity: 1; \x7d\n\x7d\n</style>\n"

/-- Literal segment 0 of the `metadata_script` template (src/app.py:373-383). -/
def metaSeg0 : Str :=
  str "\n<!-- メタデータ情報（TikTok Pixelで参照） -->\n<script type=\"application/json\" id=\"afitori-metadata\">\n\x7b\n  \"originalUrl\": \""

/-- Literal segment 1 of the `metadata_script` template (src/app.py:373-383). -/
def metaSeg1 : Str :=
  str "\",\n  \"generatedAt\": \""

/-- Literal segment 2 of the `metadata_script` template (src/app.py:373-383). -/
def metaSeg2 : Str :=
  str "\",\n  \"protocol\": \""

/-- Literal segment 3 of the `metadata_script` template (src/app.py:373-383). -/
def metaSeg3 : Str :=
  str "\",\n  \"domain\": \""

/-- Literal segment 4 of the `metadata_script` template (src/app.py:373-383). -/
def metaSeg4 : Str :=
  str "\"\n\x7d\n</script>\n"

/-- `pixel_code.replace("'", "\\'")` (src/app.py:307). -/
def escapeSingleQuotes (s : Str) : Str := replaceSub (str "'") (str "\\'") s

/-- The assembled `pixel_script` (src/app.py:259-370): the two literal
halves around the escaped pixel code. -/
def pixelScript (pc : Str) : Str :=
  pixelScriptPre ++ escapeSingleQuotes pc ++ pixelScriptPost

/-- `metadata_script` (src/app.py:373-383): the template formatted with
the original URL, the timestamp, and the scheme and netloc that
`urlparse(original_url)` extracts. -/
def metadataScript (origUrl time : Str) : Str :=
  metaSeg0 ++ origUrl ++ metaSeg1 ++ time ++ metaSeg2 ++
    (urlparseP origUrl []).scheme ++ metaSeg3 ++ (urlparseP origUrl []).netloc ++ metaSeg4

/-- `base_href` (src/app.py:386); the f-string rebuilt at lines 452, 461,
465, 469 and 473 is the same text. -/
def baseHref (origUrl : Str) : Str :=
  str "<!-- 元のURL: " ++ origUrl ++ str " -->"

/-- The material `create` inserts before `</head>`: the URL comment, the
metadata script, the CSS reset and the pixel script, in source order
(src/app.py:443; the other branches wrap the same sequence in a fresh
`<head>`...`</head>` pair). -/
def injectBlock (origUrl time pc : Str) : Str :=
  baseHref origUrl ++ metadataScript origUrl time ++ cssReset ++ pixelScript pc

/-- Python `s.find(pat, start)` for a non-negative `start`: absolute
index of the first occurrence at or after `start`, `-1` when absent. -/
def pyFindFrom (s pat : Str) (start : Int) : Int :=
  match findSub pat (s.drop start.toNat) with
  | some n => ((start.toNat + n : Nat) : Int)
  | none => -1

/-- The head-injection cascade of `create` (src/app.py:440-473). Every
position test is the source's `> 0` comparison on `str.find`, so a tag
at index 0 is treated as absent, exactly as in the code. When no
`</head>` and no `<head` is found at a positive index the document is
PREPENDED with `<!DOCTYPE html><html><head>` + block + `</head>`
(lines 465/469/473): no `<body>` tag and no closing `</html>` are
synthesized anywhere in the cascade. -/
def createInject (doc origUrl time pc : Str) : Str :=
  if pyFind doc (str "</head>") > 0 then
    doc.take (pyFind doc (str "</head>")).toNat ++ injectBlock origUrl time pc ++
      doc.drop (pyFind doc (str "</head>")).toNat
  else if pyFind doc (str "<head") > 0 then
    if pyFindFrom doc (str ">") (pyFind doc (str "<head")) > 0 then
      doc.take ((pyFindFrom doc (str ">") (pyFind doc (str "<head"))).toNat + 1) ++
        str "<head>" ++ injectBlock origUrl time pc ++ str "</head>" ++
        doc.drop ((pyFindFrom doc (str ">") (pyFind doc (str "<head"))).toNat + 1)
    else if pyFind doc (str "<html") > 0 then
      if pyFindFrom doc (str ">") (pyFind doc (str "<html")) > 0 then
        doc.take ((pyFindFrom doc (str ">") (pyFind doc (str "<html"))).toNat + 1) ++
          str "<head>" ++ injectBlock origUrl time pc ++ str "</head>" ++
          doc.drop ((pyFindFrom doc (str ">") (pyFind doc (str "<html"))).toNat + 1)
      else
        str "<!DOCTYPE html><html><head>" ++
          (injectBlock origUrl time pc ++ (str "</head>" ++ doc))
    else
      str "<!DOCTYPE html><html><head>" ++
        (injectBlock origUrl time pc ++ (str "</head>" ++ doc))
  else
    str "<!DOCTYPE html><html><head>" ++
      (injectBlock origUrl time pc ++ (str "</head>" ++ doc))

/-- The charset insurance of `create` (src/app.py:483-490): when the
literal `<meta charset="UTF-8">` is absent, it is inserted right after
the first `<head>` when one exists; only when the document has no
`<head>` substring at all is the full `<!DOCTYPE html>`/`<html>`/
`<head>`/`<body>` skeleton synthesized around it. -/
def ensureMetaCharset (h : Str) : Str :=
  if containsSub (str "<meta charset=\"UTF-8\">") h then h
  else
    if (if containsSub (str "<head>") h then pyFind h (str "<head>") + 6 else 0 : Int) > 0 then
      h.take (if containsSub (str "<head>") h then pyFind h (str "<head>") + 6 else 0 : Int).toNat ++
        str "\n<meta charset=\"UTF-8\">\n" ++
        h.drop (if containsSub (str "<head>") h then pyFind h (str "<head>") + 6 else 0 : Int).toNat
    else
      str "<!DOCTYPE html>\n<html>\n<head>\n<meta charset=\"UTF-8\">\n</head>\n<body>\n" ++ h ++
        str "\n</body>\n</html>"

/-- Lines 440-490 of `create` composed: head injection, then the charset
check. The relative-path rewrite the code runs between them (line 476,
`fix_relative_paths`, modelled separately for C1/C2/C6) rewrites
src/href/srcset/url() attribute values only and synthesizes no tags, so
it is dropped from this composition. -/
def createAssemble (doc origUrl time pc : Str) : Str :=
  ensureMetaCharset (createInject doc origUrl time pc)

/-- Substring containment agrees with the substring search. -/
theorem containsSub_eq_isSome (pat s : Str) :
    containsSub pat s = (findSub pat s).isSome := by
  induction s with
  | nil =>
      show pat.isEmpty = (if pat.isEmpty then some 0 else none).isSome
      cases pat with
      | nil => rfl
      | cons c cs => rfl
  | cons c rest ih =>
      show (isPre pat (c :: rest) || containsSub pat rest) =
        (if isPre pat (c :: rest) then some 0 else (findSub pat rest).map (· + 1)).isSome
      cases h : isPre pat (c :: rest) with
      | true => rfl
      | false =>
          simp only [Bool.false_or, ih]
          cases findSub pat rest with
          | none => rfl
          | some n => rfl

/-- When the charset meta tag is absent and the first `<head>` sits at
index 21 (as in `<!DOCTYPE html><html><head>`), the insurance step
inserts the tag right after that `<head>`, at index 27. -/
theorem ensureMetaCharset_at21 (h : Str)
    (hm : containsSub (str "<meta charset=\"UTF-8\">") h = false)
    (hf : findSub (str "<head>") h = some 21) :
    ensureMetaCharset h =
      h.take 27 ++ str "\n<meta charset=\"UTF-8\">\n" ++ h.drop 27 := by
  have hcont : containsSub (str "<head>") h = true := by
    rw [containsSub_eq_isSome, hf]
    rfl
  have hpf : pyFind h (str "<head>") = 21 := by
    unfold pyFind
    rw [hf]
    rfl
  unfold ensureMetaCharset
  rw [hm]
  rw [if_neg Bool.false_ne_true]
  rw [hcont]
  rw [if_pos rfl]
  rw [hpf]
  rw [if_pos (show ((21 : Int) + 6) > 0 by decide)]
  rfl

/-- C5 (amended): when the document has no `</head>` and no `<head` at a
positive index, `create` PREPENDS `<!DOCTYPE html><html><head>` + the
injected block + `</head>` to the document and the charset step then
inserts `<meta charset="UTF-8">` right after the synthesized `<head>`:
the original content is appended verbatim after `</head>` with NO
`<body>` wrapper and NO closing `</html>` tag — the claimed
`<body>...</body></html>` skeleton is never produced on this path (the
skeleton branch of the charset step would run only if the document
lacked the substring `<head>`, which the injection just added). -/
theorem c5_synthesized_document_amended (doc origUrl time pc : Str)
    (hhe : ¬ pyFind doc (str "</head>") > 0)
    (hhs : ¬ pyFind doc (str "<head") > 0)
    (hmeta : containsSub (str "<meta charset=\"UTF-8\">")
      (createInject doc origUrl time pc) = false)
    (hfind : findSub (str "<head>") (createInject doc origUrl time pc) = some 21) :
    createAssemble doc origUrl time pc =
      str "<!DOCTYPE html><html><head>" ++ str "\n<meta charset=\"UTF-8\">\n" ++
        (injectBlock origUrl time pc ++ (str "</head>" ++ doc)) := by
  have hnew : createInject doc origUrl time pc =
      str "<!DOCTYPE html><html><head>" ++
        (injectBlock origUrl time pc ++ (str "</head>" ++ doc)) := by
    unfold createInject
    rw [if_neg hhe, if_neg hhs]
  unfold createAssemble
  rw [ensureMetaCharset_at21 _ hmeta hfind, hnew]
  have hlen : (str "<!DOCTYPE html><html><head>").length = 27 := rfl
  rw [← hlen, List.take_left, List.drop_left]

/-- `containsSub` unfolded one step on a cons cell. -/
theorem containsSub_cons (pat : Str) (c : Char) (rest : Str) :
    containsSub pat (c :: rest) = (isPre pat (c :: rest) || containsSub pat rest) := rfl

/-- Taking past a left factor of an append takes inside the right one. -/
theorem take_append_len (a b : Str) (n : Nat) :
    (a ++ b).take (a.length + n) = a ++ b.take n := by
  induction a with
  | nil => simp
  | cons c as ih =>
      show ((c :: as) ++ b).take ((c :: as).length + n) = (c :: as) ++ b.take n
      have hl : (c :: as).length + n = (as.length + n) + 1 := by
        simp only [List.length_cons]
        omega
      rw [hl]
      show c :: ((as ++ b).take (as.length + n)) = c :: (as ++ b.take n)
      rw [ih]

/-- A prefix test only reads the first `pat.length` characters. -/
theorem isPre_take (pat y : Str) (k : Nat) (hk : pat.length ≤ k) :
    isPre pat (y.take k) = isPre pat y := by
  induction pat generalizing y k with
  | nil => rfl
  | cons p ps ih =>
      cases y with
      | nil =>
          cases k with
          | zero => rfl
          | succ k2 => rfl
      | cons c cs =>
          cases k with
          | zero => exact absurd hk (by simp [List.length_cons])
          | succ k2 =>
              show ((p == c) && isPre ps (cs.take k2)) = ((p == c) && isPre ps cs)
              rw [ih cs k2 (by simp only [List.length_cons] at hk; omega)]

/-- Chunked absence: a pattern misses `a ++ b` when it misses `b` and
misses `a` extended by the first `pat.length - 1` characters of `b`
(no fully inside, no straddling occurrence). -/
theorem containsSub_split (pat a b : Str)
    (h1 : containsSub pat (a ++ b.take (pat.length - 1)) = false)
    (h2 : containsSub pat b = false) :
    containsSub pat (a ++ b) = false := by
  induction a with
  | nil => exact h2
  | cons c as ih =>
      rw [List.cons_append, containsSub_cons] at h1
      rw [List.cons_append, containsSub_cons]
      have hparts := Bool.or_eq_false_iff.mp h1
      have hpre : isPre pat (c :: (as ++ b)) = false := by
        have hk : pat.length ≤ (c :: as).length + (pat.length - 1) := by
          simp only [List.length_cons]
          omega
        have e1 : isPre pat (((c :: as) ++ b).take ((c :: as).length + (pat.length - 1))) =
            isPre pat ((c :: as) ++ b) := isPre_take pat ((c :: as) ++ b) _ hk
        rw [take_append_len] at e1
        simp only [List.cons_append] at e1
        rw [← e1]
        exact hparts.1
      rw [hpre, Bool.false_or]
      exact ih hparts.2

/-- A pattern found in `b` is found in `a ++ b`. -/
theorem containsSub_append_of_right (pat a b : Str)
    (h : containsSub pat b = true) : containsSub pat (a ++ b) = true := by
  induction a with
  | nil => exact h
  | cons c as ih =>
      rw [List.cons_append, containsSub_cons, ih, Bool.or_true]

/-- Concrete inputs for the C5 scenario: a headless document, a URL, a
timestamp and a pixel snippet. -/
def c5Doc : Str := str "<p>hello</p>"

/-- The C5 scenario's original URL. -/
def c5Url : Str := str "https://example.com/"

/-- The C5 scenario's timestamp. -/
def c5Time : Str := str "2024-01-01 00:00:00"

/-- The C5 scenario's pixel snippet. -/
def c5Pixel : Str := str "ttq.page();"

/-- What the injection cascade produces on the C5 scenario: the
prepended head followed by the original document. -/
def c5New : Str :=
  str "<!DOCTYPE html><html><head>" ++
    (injectBlock c5Url c5Time c5Pixel ++ (str "</head>" ++ c5Doc))

/-- On the headless document the cascade takes the prepend branch. -/
theorem c5_inject_eq : createInject c5Doc c5Url c5Time c5Pixel = c5New := rfl

/-- `str.replace` is the identity when the pattern does not occur. -/
theorem replaceSub_noop (pat rep s : Str) (h : containsSub pat s = false) :
    replaceSub pat rep s = s := by
  induction s with
  | nil => simp only [replaceSub]
  | cons c rest ih =>
      rw [containsSub_cons, Bool.or_eq_false_iff] at h
      simp only [replaceSub]
      have hcond : ¬ (pat ≠ [] ∧ isPre pat (c :: rest) = true) := by
        intro hc
        rw [h.1] at hc
        exact Bool.false_ne_true hc.2
      rw [dif_neg hcond, ih h.2]

/-- The C5 pixel snippet has no single quote, so the escaping step
leaves it unchanged. -/
theorem c5_escape_eq : escapeSingleQuotes c5Pixel = c5Pixel :=
  replaceSub_noop _ _ _ (by decide)

set_option maxRecDepth 100000 in
/-- The charset meta tag occurs nowhere in the injected document. -/
theorem c5_meta_absent_new :
    containsSub (str "<meta charset=\"UTF-8\">") c5New = false := by
  unfold c5New injectBlock baseHref metadataScript pixelScript
  rw [c5_escape_eq]
  simp only [List.append_assoc]
  repeat refine containsSub_split _ _ _ (by decide) ?_
  decide

/-- The charset meta tag is absent from the cascade's output. -/
theorem c5_meta_absent :
    containsSub (str "<meta charset=\"UTF-8\">")
      (createInject c5Doc c5Url c5Time c5Pixel) = false := by
  rw [c5_inject_eq]
  exact c5_meta_absent_new

set_option maxRecDepth 100000 in
/-- The first `<head>` of the injected document sits at index 21. -/
theorem c5_head21_new : findSub (str "<head>") c5New = some 21 := by decide

/-- The first `<head>` of the cascade's output sits at index 21. -/
theorem c5_head21 :
    findSub (str "<head>") (createInject c5Doc c5Url c5Time c5Pixel) = some 21 := by
  rw [c5_inject_eq]
  exact c5_head21_new

/-- The assembled output on the C5 scenario: prepended head, charset
meta tag spliced in after `<head>`, injected block, `</head>`, original
document. -/
theorem c5_assembled :
    createAssemble c5Doc c5Url c5Time c5Pixel =
      str "<!DOCTYPE html><html><head>" ++ str "\n<meta charset=\"UTF-8\">\n" ++
        (injectBlock c5Url c5Time c5Pixel ++ (str "</head>" ++ c5Doc)) := by
  unfold createAssemble
  rw [c5_inject_eq]
  rw [ensureMetaCharset_at21 c5New c5_meta_absent_new c5_head21_new]
  show (str "<!DOCTYPE html><html><head>" ++
      (injectBlock c5Url c5Time c5Pixel ++ (str "</head>" ++ c5Doc))).take 27 ++
      str "\n<meta charset=\"UTF-8\">\n" ++
      (str "<!DOCTYPE html><html><head>" ++
      (injectBlock c5Url c5Time c5Pixel ++ (str "</head>" ++ c5Doc))).drop 27 = _
  have hlen : (str "<!DOCTYPE html><html><head>").length = 27 := rfl
  rw [← hlen, List.take_left, List.drop_left]

/-- C5, witness: the concrete scenario driven through the amended
theorem: document `<p>hello</p>`, URL `https://example.com/`, a fixed
timestamp and the snippet `ttq.page();`. -/
theorem c5_synthesized_document_amended_witness :
    ((¬ pyFind c5Doc (str "</head>") > 0) ∧
      (¬ pyFind c5Doc (str "<head") > 0) ∧
      containsSub (str "<meta charset=\"UTF-8\">")
        (createInject c5Doc c5Url c5Time c5Pixel) = false ∧
      findSub (str "<head>") (createInject c5Doc c5Url c5Time c5Pixel) = some 21) ∧
    createAssemble c5Doc c5Url c5Time c5Pixel =
      str "<!DOCTYPE html><html><head>" ++ str "\n<meta charset=\"UTF-8\">\n" ++
        (injectBlock c5Url c5Time c5Pixel ++ (str "</head>" ++ c5Doc)) :=
  ⟨⟨by decide, by decide, c5_meta_absent, c5_head21⟩,
    c5_synthesized_document_amended c5Doc c5Url c5Time c5Pixel
      (by decide) (by decide) c5_meta_absent c5_head21⟩

set_option maxRecDepth 100000 in
/-- C5, counterexample: on the headless document `<p>hello</p>` the
assembled output starts with the synthesized `<!DOCTYPE html><html>
<head>` and still contains the original content, but holds no `<body`
and no `</html>` anywhere — not the claimed full-document skeleton. -/
theorem c5_counterexample :
    startsWith (str "<!DOCTYPE html><html><head>")
      (createAssemble c5Doc c5Url c5Time c5Pixel) = true ∧
    containsSub (str "<p>hello</p>")
      (createAssemble c5Doc c5Url c5Time c5Pixel) = true ∧
    containsSub (str "<body")
      (createAssemble c5Doc c5Url c5Time c5Pixel) = false ∧
    containsSub (str "</html>")
      (createAssemble c5Doc c5Url c5Time c5Pixel) = false := by
  refine ⟨?_, ?_, ?_, ?_⟩
  · rw [c5_assembled]
    decide
  · rw [c5_assembled]
    refine containsSub_append_of_right _ _ _ ?_
    refine containsSub_append_of_right _ _ _ ?_
    refine containsSub_append_of_right _ _ _ ?_
    decide
  · rw [c5_assembled]
    unfold injectBlock baseHref metadataScript pixelScript
    rw [c5_escape_eq]
    simp only [List.append_assoc]
    repeat refine containsSub_split _ _ _ (by decide) ?_
    decide
  · rw [c5_assembled]
    unfold injectBlock baseHref metadataScript pixelScript
    rw [c5_escape_eq]
    simp only [List.append_assoc]
    repeat refine containsSub_split _ _ _ (by decide) ?_
    decide

end Traffic
